import Mathlib

/-!
Verification of the Asteria smart-bot decision engine (pathfinding, fuel
management, spawn optimization) against its natural-language specification.

The TypeScript source is shallowly embedded:
* `bigint` coordinates and fuel amounts become `ℤ`;
* JavaScript `Map<string, Pellet>` snapshots become lists of pellets
  (the string keys `"x,y"` are in bijection with positions, see
  `keyToPosition_positionToKey`, so lookups are modelled by position);
* floating-point scores become `ℚ` (all weights in the source are
  dyadic rationals), with `-Infinity` modelled as `⊥` in `WithBot ℚ`
  and the failed-path cost `Infinity` modelled as `none : Option ℤ`;
* the A* search loop, bounded by `maxIterations = 1000` in the source,
  becomes a structurally recursive function on the remaining iteration
  budget.
-/

set_option maxHeartbeats 1000000

namespace Asteria

/-! ## Definitions -/

/-- A grid position; the source stores `x`, `y` as `bigint`. -/
structure Pos where
  x : ℤ
  y : ℤ
deriving DecidableEq, Repr

/-- A fuel pellet: a position plus a fuel amount (a `bigint` token
quantity in the source; the backing UTxO reference is irrelevant to the
algorithms and omitted). -/
structure Pellet where
  position : Pos
  fuel : ℤ
deriving DecidableEq, Repr

/-- A ship; only its position is consulted by the algorithms modelled here
(for the crowding penalty). -/
structure Ship where
  position : Pos
  fuel : ℤ
deriving DecidableEq, Repr

/-- The in-memory world snapshot: the values of the pellet and ship maps of
`GameStateManager`, in insertion order. -/
structure GameState where
  pellets : List Pellet
  ships : List Ship
deriving DecidableEq, Repr

/-- GAME_CONFIG.maxShipFuel. -/
def maxShipFuel : ℤ := 5

/-- GAME_CONFIG.initialFuel. -/
def initialFuel : ℤ := 5

/-- GAME_CONFIG.minAsteriaDistance. -/
def minAsteriaDistance : ℤ := 50

/-- The goal of the game: the origin. -/
def origin : Pos := ⟨0, 0⟩

/-- Manhattan distance, from `manhattanDistance` in types.ts:
`Number(abs(a.x - b.x) + abs(a.y - b.y))`. -/
def manhattanDistance (a b : Pos) : ℤ :=
  |a.x - b.x| + |a.y - b.y|

/-- `GameStateManager.getPelletAt`: map lookup by the canonical key of the
position; modelled as the first pellet of the snapshot at that position. -/
def getPelletAt (gs : GameState) (pos : Pos) : Option Pellet :=
  gs.pellets.find? (fun p => decide (p.position = pos))

/-- `GameStateManager.getAllPellets`. -/
def getAllPellets (gs : GameState) : List Pellet :=
  gs.pellets

/-- `GameStateManager.getAllShips`. -/
def getAllShips (gs : GameState) : List Ship :=
  gs.ships

/-- Comparator order used by `getPelletsWithinDistance`: ascending distance
from `pos` (the source sorts with `distA - distB`, a stable sort). -/
def nearerThan (pos : Pos) (a b : Pellet) : Prop :=
  manhattanDistance pos a.position ≤ manhattanDistance pos b.position

instance (pos : Pos) : DecidableRel (nearerThan pos) := fun a b =>
  inferInstanceAs (Decidable (_ ≤ _))

/-- `GameStateManager.getPelletsWithinDistance`: filter by distance, then
sort ascending by distance (JavaScript array sort is stable; modelled by a
stable insertion sort). -/
def getPelletsWithinDistance (gs : GameState) (pos : Pos) (maxDistance : ℤ) : List Pellet :=
  (gs.pellets.filter (fun p => decide (manhattanDistance pos p.position ≤ maxDistance))).insertionSort
    (nearerThan pos)

/-! ### Position keys (`positionToKey` / `keyToPosition` from types.ts)

The source renders a position as the template literal string `x,y` (JS
decimal rendering of the two `bigint`s) and parses it back by splitting on
the comma and applying `BigInt`.  Decimal rendering and parsing are
modelled by elementary recursions on the character list of the string. -/

/-- The decimal digit character for `d < 10`. -/
def digitChar (d : ℕ) : Char := Char.ofNat (48 + d)

/-- Decimal rendering of a natural number, most significant digit first
(the rendering JS uses inside a template literal). -/
def natChars (n : ℕ) : List Char :=
  if h : n < 10 then [digitChar n]
  else natChars (n / 10) ++ [digitChar (n % 10)]
decreasing_by exact Nat.div_lt_self (by omega) (by omega)

/-- Decimal rendering of an integer, with a leading minus sign when
negative. -/
def intChars (i : ℤ) : List Char :=
  if i < 0 then List.cons (Char.ofNat 45) (natChars i.natAbs) else natChars i.toNat

/-- `positionToKey` from types.ts: the string `x,y`. -/
def positionToKey (p : Pos) : String :=
  String.mk (intChars p.x ++ Char.ofNat 44 :: intChars p.y)

/-- Split a character list at every comma (models `String.split(',')` of
JavaScript on the rendered key). -/
def splitOnComma : List Char → List (List Char)
  | [] => [[]]
  | c :: rest =>
    if c = Char.ofNat 44 then [] :: splitOnComma rest
    else
      match splitOnComma rest with
      | [] => [[c]]
      | g :: gs => (c :: g) :: gs

/-- Decimal parsing of an unsigned digit string (the digit loop of
`BigInt`). -/
def parseNat (ds : List Char) : ℕ :=
  ds.foldl (fun acc c => 10 * acc + (c.toNat - 48)) 0

/-- Decimal parsing of a possibly sign-prefixed string (models `BigInt`
applied to one component of the key). -/
def parseInt (ds : List Char) : ℤ :=
  match ds with
  | [] => 0
  | c :: rest => if c = Char.ofNat 45 then -(parseNat rest : ℤ) else (parseNat (c :: rest) : ℤ)

/-- `keyToPosition` from types.ts: split the key on the comma and parse the
two components (a malformed key would throw in JS; the model returns the
origin in that unreachable case). -/
def keyToPosition (s : String) : Pos :=
  match splitOnComma s.data with
  | a :: b :: _ => ⟨parseInt a, parseInt b⟩
  | _ => ⟨0, 0⟩

/-! ### Pathfinder (pathfinding.ts)

`PathNode` keeps the back-link `parent` of the source as the flattened
chain of ancestor `(position, fuel)` pairs, nearest ancestor first; this is
exactly the information reachable from the source's parent pointer that
`reconstructPath` consumes.  The open and closed sets, keyed in the source
by the canonical string of the position (in bijection with positions), are
modelled as an insertion-ordered association list keyed by position and a
list of visited positions. -/

/-- A search node of the A* loop. -/
structure PathNode where
  position : Pos
  g : ℤ
  h : ℤ
  f : ℤ
  fuel : ℤ
  parent : List (Pos × ℤ)
deriving DecidableEq, Repr

/-- The result of a path search.  A failed path has `totalCost = none`,
modelling the `Infinity` of the source. -/
structure Path where
  nodes : List Pos
  totalCost : Option ℤ
  fuelStops : List Pos
  success : Bool
deriving DecidableEq, Repr

/-- The failed path returned by `findPath` when the search gives up. -/
def failPath : Path :=
  { nodes := [], totalCost := none, fuelStops := [], success := false }

/-- `Pathfinder.hasPelletOnPath`: the greedy one-hop feasibility check; true
when some pellet is reachable with the current fuel and the refuel there
(capped at capacity) covers the remaining distance to the goal. -/
def hasPelletOnPath (gs : GameState) (src dst : Pos) (currentFuel : ℤ) : Bool :=
  (getAllPellets gs).any fun pellet =>
    let distToPellet := manhattanDistance src pellet.position
    let distFromPelletToGoal := manhattanDistance pellet.position dst
    decide (distToPellet ≤ currentFuel) &&
      (let fuelAfterMove := currentFuel - distToPellet
       let maxRefuel := maxShipFuel - fuelAfterMove
       let actualRefuel := min pellet.fuel maxRefuel
       decide (distFromPelletToGoal ≤ fuelAfterMove + actualRefuel))

/-- The per-axis step toward the origin used by `getNeighbors`:
`position.x !== 0n ? -position.x / abs(position.x) : 0n`. -/
def towardOrigin (c : ℤ) : ℤ :=
  if c ≠ 0 then -c / |c| else 0

/-- The eight candidate moves of `getNeighbors`, in source order. -/
def moveOffsets : List (ℤ × ℤ) :=
  [(1, 0), (-1, 0), (0, 1), (0, -1), (1, 1), (-1, 1), (1, -1), (-1, -1)]

/-- `Pathfinder.getNeighbors`: the four axis moves always, and a diagonal
move only when both components step toward the origin. -/
def getNeighbors (position : Pos) : List Pos :=
  moveOffsets.filterMap fun m =>
    if m.1 ≠ 0 ∧ m.2 ≠ 0 then
      if m.1 = towardOrigin position.x ∧ m.2 = towardOrigin position.y then
        some ⟨position.x + m.1, position.y + m.2⟩
      else none
    else some ⟨position.x + m.1, position.y + m.2⟩

/-- One fuel update of the search and of the simulator: pay one fuel for
the step and, when pellets are considered and one lies at the entered
position, refuel clamped to capacity. -/
def stepFuel (gs : GameState) (considerPellets : Bool) (f : ℤ) (p : Pos) : ℤ :=
  let f1 := f - 1
  if considerPellets then
    match getPelletAt gs p with
    | some pellet => min maxShipFuel (f1 + pellet.fuel)
    | none => f1
  else f1

/-- The open set: an association list in insertion order (a JS `Map`). -/
abbrev OpenSet := List (Pos × PathNode)

/-- Lookup in the open set (JS `Map.get`). -/
def osFind (os : OpenSet) (k : Pos) : Option PathNode :=
  (os.find? fun e => decide (e.1 = k)).map (·.2)

/-- Insertion into the open set (JS `Map.set`): replaces in place when the
key is present, else appends. -/
def osSet (os : OpenSet) (k : Pos) (n : PathNode) : OpenSet :=
  if os.any fun e => decide (e.1 = k) then
    os.map fun e => if e.1 = k then (k, n) else e
  else os ++ [(k, n)]

/-- Deletion from the open set (JS `Map.delete`). -/
def osDelete (os : OpenSet) (k : Pos) : OpenSet :=
  os.filter fun e => decide (e.1 ≠ k)

/-- The linear scan for the node with the lowest `f` score
(`for (const [key, node] of openSet) if (!current || node.f < current.f)`);
ties keep the first-found entry. -/
def scanMin (os : OpenSet) : Option (Pos × PathNode) :=
  os.foldl
    (fun best e =>
      match best with
      | none => some e
      | some b => if e.2.f < b.2.f then some e else best)
    none

/-- `Pathfinder.reconstructPath`: walk the parent chain, collecting the
node positions, one unit of cost per parent link, and every non-start
position holding a pellet as a fuel stop. -/
def reconstructPath (gs : GameState) (n : PathNode) : Path :=
  let chain := ((n.position, n.fuel) :: n.parent).reverse
  { nodes := chain.map Prod.fst
    totalCost := some (n.parent.length : ℤ)
    fuelStops := ((chain.drop 1).filter fun e => (getPelletAt gs e.1).isSome).map Prod.fst
    success := true }

/-- Processing of one neighbor inside the A* loop body, in source order:
skip if closed; skip if the fuel for the step is missing; refuel if a
pellet is present and pellets are considered; skip when the remaining fuel
cannot cover the distance to goal and the one-hop pellet check fails; skip
when a not-worse open entry exists; otherwise insert the new node. -/
def expandNeighbor (gs : GameState) (goal : Pos) (considerPellets : Bool)
    (closed : List Pos) (cur : PathNode) (os : OpenSet) (npos : Pos) : OpenSet :=
  if npos ∈ closed then os
  else if cur.fuel - 1 < 0 then os
  else
    let fuelAtNeighbor := stepFuel gs considerPellets cur.fuel npos
    let distanceToGoal := manhattanDistance npos goal
    if fuelAtNeighbor < distanceToGoal ∧ ¬ hasPelletOnPath gs npos goal fuelAtNeighbor then os
    else
      let tentativeG := cur.g + 1
      let newNode : PathNode :=
        { position := npos, g := tentativeG, h := distanceToGoal,
          f := tentativeG + distanceToGoal, fuel := fuelAtNeighbor,
          parent := (cur.position, cur.fuel) :: cur.parent }
      match osFind os npos with
      | some existing => if existing.g ≤ tentativeG then os else osSet os npos newNode
      | none => osSet os npos newNode

/-- The A* loop of `findPath`, structurally recursive on the remaining
iteration budget (the source counts up to `maxIterations = 1000`).  Each
round dequeues the minimum-`f` node; reaching the goal reconstructs the
path, an empty open set or an exhausted budget fails. -/
def findPathLoop (gs : GameState) (goal : Pos) (considerPellets : Bool) :
    ℕ → OpenSet → List Pos → Path
  | 0, _, _ => failPath
  | budget + 1, os, closed =>
    match scanMin os with
    | none => failPath
    | some (currentKey, current) =>
      if current.position = goal then reconstructPath gs current
      else
        let os1 := osDelete os currentKey
        let closed1 := currentKey :: closed
        let os2 := (getNeighbors current.position).foldl
          (expandNeighbor gs goal considerPellets closed1 current) os1
        findPathLoop gs goal considerPellets budget os2 closed1

/-- `Pathfinder.findPath`: fuel-aware A* from `start` to `goal`. -/
def findPath (gs : GameState) (start goal : Pos) (startFuel : ℤ)
    (considerPellets : Bool) : Path :=
  let h0 := manhattanDistance start goal
  let startNode : PathNode :=
    { position := start, g := 0, h := h0, f := h0, fuel := startFuel, parent := [] }
  findPathLoop gs goal considerPellets 1000 [(start, startNode)] []

/-- Fuel replay of a node sequence: `none` when fuel would go negative,
else the remaining fuel (the loop body of `simulatePath`, which skips the
start node and never refuels there). -/
def simFuel (gs : GameState) (f : ℤ) : List Pos → Option ℤ
  | [] => some f
  | p :: rest =>
    let f1 := f - 1
    if f1 < 0 then none
    else
      simFuel gs
        (match getPelletAt gs p with
         | some pellet => min maxShipFuel (f1 + pellet.fuel)
         | none => f1)
        rest

/-- `Pathfinder.simulatePath`: replay a concrete node sequence, returning
false the moment fuel would go negative. -/
def simulatePath (gs : GameState) (path : List Pos) (startFuel : ℤ) : Bool :=
  (simFuel gs startFuel (path.drop 1)).isSome

/-- The two-leg composition attempted for one reachable pellet inside
`findPathWithRefueling`: the pellet-blind leg from the start to the pellet,
the refuel there (capped at capacity), and the pellet-aware leg from the
pellet to the goal; `none` when either leg fails.  (A successful leg always
has a finite cost, so the `none` cost arms are unreachable.) -/
def twoLegPath (gs : GameState) (start goal : Pos) (startFuel : ℤ)
    (pellet : Pellet) : Option (Path × ℤ) :=
  let pathToPellet := findPath gs start pellet.position startFuel false
  if pathToPellet.success then
    match pathToPellet.totalCost with
    | none => none
    | some c1 =>
      let fuelAtPellet := min maxShipFuel (startFuel - c1 + pellet.fuel)
      let pathFromPellet := findPath gs pellet.position goal fuelAtPellet true
      if pathFromPellet.success then
        match pathFromPellet.totalCost with
        | none => none
        | some c2 =>
          some ({ nodes := pathToPellet.nodes.dropLast ++ pathFromPellet.nodes,
                  totalCost := some (c1 + c2),
                  fuelStops := pellet.position :: pathFromPellet.fuelStops,
                  success := true }, c1 + c2)
      else none
  else none

/-- The comparison with the best cost so far of the loop of
`findPathWithRefueling` (`none` is the initial `Infinity` best cost). -/
def costBetter (totalCost : ℤ) (bestCost : Option ℤ) : Bool :=
  match bestCost with
  | none => true
  | some bc => decide (totalCost < bc)

/-- One step of the loop over reachable pellets in `findPathWithRefueling`:
keep the two-leg composition through the pellet when it exists and its
total cost beats the best so far. -/
def refuelCandidateStep (gs : GameState) (start goal : Pos) (startFuel : ℤ)
    (acc : Path × Option ℤ) (pellet : Pellet) : Path × Option ℤ :=
  match twoLegPath gs start goal startFuel pellet with
  | none => acc
  | some (path, totalCost) =>
    if costBetter totalCost acc.2 then (path, some totalCost) else acc

/-- `Pathfinder.findPathWithRefueling`: try the direct path; on failure,
try every pellet reachable with the start fuel as a two-leg waypoint and
keep the cheapest composition.  (In `reconstructPath` and in
`refuelCandidateStep` a successful leg always has a finite cost, so the
`none` cost arms there are unreachable.) -/
def findPathWithRefueling (gs : GameState) (start goal : Pos) (startFuel : ℤ) : Path :=
  let directPath := findPath gs start goal startFuel true
  if directPath.success then directPath
  else
    let reachablePellets := (getAllPellets gs).filter
      fun p => decide (manhattanDistance start p.position ≤ startFuel)
    if reachablePellets.isEmpty then directPath
    else
      (reachablePellets.foldl (refuelCandidateStep gs start goal startFuel)
        (directPath, none)).1

/-- `Pathfinder.calculateNextMove`: greedy unit step toward the target,
each axis clamped to the unit direction. -/
def calculateNextMove (src dst : Pos) : ℤ × ℤ :=
  let dx := if src.x ≠ dst.x then (if src.x < dst.x then 1 else -1) else 0
  let dy := if src.y ≠ dst.y then (if src.y < dst.y then 1 else -1) else 0
  (dx, dy)

/-! ### FuelManager (fuel-manager.ts)

The single piece of instance state, the `conservativeMode` flag set by
`updateStrategy`, is passed explicitly. -/

/-- `FuelManager.getReachablePellets`: the pellets within the current fuel
range. -/
def getReachablePellets (gs : GameState) (position : Pos) (fuel : ℤ) : List Pellet :=
  getPelletsWithinDistance gs position fuel

/-- `FuelManager.updateStrategy`: conservative iff fewer than 10 pellets. -/
def updateStrategy (pelletsCount : ℕ) : Bool :=
  decide (pelletsCount < 10)

/-- `FuelManager.needsRefueling`, with the mutable `conservativeMode` flag
as an explicit argument. -/
def needsRefueling (gs : GameState) (conservativeMode : Bool) (currentFuel : ℤ)
    (currentPosition : Pos) : Bool :=
  let distanceToOrigin := manhattanDistance currentPosition origin
  if currentFuel = 0 then true
  else if distanceToOrigin ≤ currentFuel then false
  else if (getReachablePellets gs currentPosition currentFuel).isEmpty then false
  else if conservativeMode ∧ currentFuel < 3 then true
  else decide (currentFuel < 2)

/-- The pellet score of `FuelManager.findBestRefuelTarget`:
`progressScore * 2 + fuelGainScore * 1.5 + proximityScore + (canReachOriginAfter ? 100 : 0)`
(the JS floats are dyadic rationals, modelled in `ℚ`). -/
def refuelScore (currentPosition : Pos) (currentFuel : ℤ) (pellet : Pellet) : ℚ :=
  let distanceToPellet := manhattanDistance currentPosition pellet.position
  let distanceToOrigin := manhattanDistance pellet.position origin
  let fuelAfterReaching := currentFuel - distanceToPellet
  let fuelAfterRefuel := min maxShipFuel (fuelAfterReaching + pellet.fuel)
  let progressScore := manhattanDistance currentPosition origin - distanceToOrigin
  let fuelGainScore := pellet.fuel
  let proximityScore := -distanceToPellet
  (progressScore : ℚ) * 2 + (fuelGainScore : ℚ) * (3 / 2) + (proximityScore : ℚ) +
    (if distanceToOrigin ≤ fuelAfterRefuel then 100 else 0)

/-- Comparator order of `findBestRefuelTarget`: descending score (the
source sorts with `b.score - a.score`, a stable sort). -/
def betterRefuel (currentPosition : Pos) (currentFuel : ℤ) (a b : Pellet) : Prop :=
  refuelScore currentPosition currentFuel b ≤ refuelScore currentPosition currentFuel a

instance (pos : Pos) (fuel : ℤ) : DecidableRel (betterRefuel pos fuel) := fun a b =>
  inferInstanceAs (Decidable (_ ≤ _))

/-- `FuelManager.findBestRefuelTarget`: score the reachable pellets, sort
descending by score (stable), return the first or `none`. -/
def findBestRefuelTarget (gs : GameState) (currentPosition : Pos) (currentFuel : ℤ) :
    Option Pellet :=
  ((getReachablePellets gs currentPosition currentFuel).insertionSort
    (betterRefuel currentPosition currentFuel)).head?

/-! ### SpawnOptimizer (spawn-optimizer.ts)

Candidate generation (`generateSpawnCandidates`) samples positions with
floating-point trigonometry (`Math.cos`, `Math.sin`, `Math.round`); the
generated candidate list is therefore taken as an explicit argument here.
Every generated candidate lies at Manhattan distance at least
`minAsteriaDistance - 1 ≥ 49` from the origin.  The composite score is a
JS float with `-Infinity` for infeasible candidates, modelled by
`WithBot ℚ`. -/

/-- A candidate spawn position with its evaluation. -/
structure SpawnCandidate where
  position : Pos
  score : WithBot ℚ
  guaranteedPath : Bool
  pathToOrigin : Option Path
  nearbyPellets : ℕ
  totalMoves : Option ℤ
deriving DecidableEq, Repr

/-- `SpawnOptimizer.countNearbyShips`. -/
def countNearbyShips (gs : GameState) (position : Pos) (radius : ℤ) : ℕ :=
  ((getAllShips gs).filter fun s => decide (manhattanDistance position s.position ≤ radius)).length

/-- `SpawnOptimizer.calculateSpawnScore`: `-Infinity` (here `⊥`) without a
successful path, else the weighted sum of feasibility, efficiency, safety,
pellet access, distance penalty and competition.  (A successful path always
has a finite cost, so the `none` cost arm is unreachable.) -/
def calculateSpawnScore (gs : GameState) (position : Pos) (path : Path)
    (nearbyShips : ℕ) : WithBot ℚ :=
  if path.success then
    let distanceToOrigin := manhattanDistance position origin
    let pathEfficiency : ℚ :=
      match path.totalCost with
      | some c => min 1 ((distanceToOrigin : ℚ) / (c : ℚ))
      | none => 0
    let pathSafety : ℚ := min 1 ((path.fuelStops.length : ℚ) / 3)
    let extendedNearbyPellets := (getPelletsWithinDistance gs position 20).length
    let pelletScore : ℚ := min 1 ((extendedNearbyPellets : ℚ) / 10)
    let competitionScore : ℚ := max 0 (1 - (nearbyShips : ℚ) / 3)
    let distancePenalty : ℚ := (distanceToOrigin : ℚ) / 200
    (((1000 : ℚ) * 1 + 500 * pathEfficiency + 300 * pathSafety + 200 * pelletScore +
      (-50) * distancePenalty + (-100) * competitionScore : ℚ) : WithBot ℚ)
  else ⊥

/-- `SpawnOptimizer.evaluateSpawnPosition`: plan a refueling path to the
origin and score the candidate. -/
def evaluateSpawnPosition (gs : GameState) (position : Pos) : SpawnCandidate :=
  let path := findPathWithRefueling gs position origin initialFuel
  let nearbyPellets := (getPelletsWithinDistance gs position 10).length
  let nearbyShips := countNearbyShips gs position 15
  let score := calculateSpawnScore gs position path nearbyShips
  { position := position, score := score, guaranteedPath := path.success,
    pathToOrigin := some path, nearbyPellets := nearbyPellets,
    totalMoves := path.totalCost }

/-- The candidate evaluation loop of `findOptimalSpawnPosition`: collect
the candidates with a guaranteed path, stopping early once at least 10
viable paths have been found over at least 100 evaluations. -/
def spawnLoop (gs : GameState) :
    List Pos → List SpawnCandidate → ℕ → ℕ → List SpawnCandidate
  | [], acc, _, _ => acc
  | position :: rest, acc, pathsFound, totalEvaluated =>
    let totalEvaluated1 := totalEvaluated + 1
    let candidate := evaluateSpawnPosition gs position
    let acc1 := if candidate.guaranteedPath then acc ++ [candidate] else acc
    let pathsFound1 := if candidate.guaranteedPath then pathsFound + 1 else pathsFound
    if 10 ≤ pathsFound1 ∧ 100 ≤ totalEvaluated1 then acc1
    else spawnLoop gs rest acc1 pathsFound1 totalEvaluated1

/-- Comparator order for evaluated candidates: descending composite score
(the source sorts with `b.score - a.score`, a stable sort). -/
def betterCandidate (a b : SpawnCandidate) : Prop :=
  b.score ≤ a.score

instance : DecidableRel betterCandidate := fun a b =>
  inferInstanceAs (Decidable (_ ≤ _))

/-- `SpawnOptimizer.findFallbackSpawnPosition`: among the candidates, keep
the one with the strictly largest number of pellets within distance 15;
with no pellet anywhere near any candidate the running maximum stays 0 and
no candidate is ever selected. -/
def findFallbackSpawnPosition (gs : GameState) (candidates : List Pos) :
    Option SpawnCandidate :=
  (candidates.foldl
    (fun (acc : Option SpawnCandidate × ℕ) position =>
      let nearbyPellets := (getPelletsWithinDistance gs position 15).length
      if acc.2 < nearbyPellets then
        (some { position := position, score := ((nearbyPellets : ℚ) : WithBot ℚ),
                guaranteedPath := false, pathToOrigin := none,
                nearbyPellets := nearbyPellets,
                totalMoves := some (manhattanDistance position origin) },
         nearbyPellets)
      else acc)
    (none, 0)).1

/-- `SpawnOptimizer.findOptimalSpawnPosition`, with the generated candidate
list as an explicit argument: evaluate candidates, fall back when none has
a guaranteed path, else return the highest-scoring one. -/
def findOptimalSpawnPosition (gs : GameState) (candidates : List Pos) :
    Option SpawnCandidate :=
  let evaluated := spawnLoop gs candidates [] 0 0
  if evaluated.isEmpty then findFallbackSpawnPosition gs candidates
  else (evaluated.insertionSort betterCandidate).head?

/-- The four axis neighbors, in source order. -/
def axisNeighbors (p : Pos) : List Pos :=
  [⟨p.x + 1, p.y⟩, ⟨p.x - 1, p.y⟩, ⟨p.x, p.y + 1⟩, ⟨p.x, p.y - 1⟩]

/-! ### The search invariant

Every node the A* loop ever places in the open set carries (through its
parent chain) a record of positions and fuel values that starts at the
start node with the initial fuel and follows the fuel update of the search
at every step, with the pre-refuel fuel check passing. -/

/-- Well-formedness of the parent chain of a search node: the recorded
fuels follow `stepFuel` from the start node and every step had the fuel to
pay for it. -/
def ChainOk (gs : GameState) (cp : Bool) (start : Pos) (F : ℤ) :
    Pos → ℤ → List (Pos × ℤ) → Prop
  | p, f, [] => p = start ∧ f = F
  | p, f, (q, fq) :: rest =>
    0 ≤ fq - 1 ∧ f = stepFuel gs cp fq p ∧ ChainOk gs cp start F q fq rest

/-- Well-formedness of a search node. -/
def NodeOk (gs : GameState) (cp : Bool) (start : Pos) (F : ℤ) (n : PathNode) : Prop :=
  ChainOk gs cp start F n.position n.fuel n.parent

/-- Well-formedness of every node of the open set. -/
def OSOk (gs : GameState) (cp : Bool) (start : Pos) (F : ℤ) (os : OpenSet) : Prop :=
  ∀ e ∈ os, NodeOk gs cp start F e.2

/-- The node positions along the full chain of a search node, start
first; these are exactly the nodes of `reconstructPath`. -/
def chainNodes (p : Pos) (f : ℤ) (ps : List (Pos × ℤ)) : List Pos :=
  (((p, f) :: ps).reverse).map Prod.fst

instance betterRefuelTotal (pos : Pos) (fuel : ℤ) :
    IsTotal Pellet (betterRefuel pos fuel) :=
  ⟨fun a b => le_total (refuelScore pos fuel b) (refuelScore pos fuel a)⟩

instance betterRefuelTrans (pos : Pos) (fuel : ℤ) :
    IsTrans Pellet (betterRefuel pos fuel) :=
  ⟨fun _ _ _ hab hbc => le_trans hbc hab⟩

/-! ### Concrete snapshots used by witnesses and counterexamples -/

/-- A snapshot with no pellets and no ships. -/
def emptyState : GameState := ⟨[], []⟩

/-- A snapshot with a single 10-fuel pellet at (3, 0). -/
def pelletAtStartState : GameState := ⟨[⟨⟨3, 0⟩, 10⟩], []⟩

/-- A snapshot with a 1-fuel pellet at (6, 0) and a 20-fuel pellet at the
origin. -/
def twoPelletState : GameState := ⟨[⟨⟨6, 0⟩, 1⟩, ⟨⟨0, 0⟩, 20⟩], []⟩

/-! ## Theorems -/

theorem manhattanDistance_nonneg (a b : Pos) : 0 ≤ manhattanDistance a b := by
  have h1 : (0 : ℤ) ≤ |a.x - b.x| := abs_nonneg _
  have h2 : (0 : ℤ) ≤ |a.y - b.y| := abs_nonneg _
  simp only [manhattanDistance]
  omega

theorem getPelletsWithinDistance_perm (gs : GameState) (pos : Pos) (d : ℤ) :
    (getPelletsWithinDistance gs pos d).Perm
      (gs.pellets.filter (fun p => decide (manhattanDistance pos p.position ≤ d))) :=
  List.perm_insertionSort _ _

theorem mem_getPelletsWithinDistance (gs : GameState) (pos : Pos) (d : ℤ) (p : Pellet) :
    p ∈ getPelletsWithinDistance gs pos d ↔
      p ∈ gs.pellets ∧ manhattanDistance pos p.position ≤ d := by
  rw [(getPelletsWithinDistance_perm gs pos d).mem_iff, List.mem_filter]
  simp

theorem getPelletsWithinDistance_eq_nil (gs : GameState) (pos : Pos) (d : ℤ)
    (h : ∀ p ∈ gs.pellets, ¬ manhattanDistance pos p.position ≤ d) :
    getPelletsWithinDistance gs pos d = [] := by
  have hperm := getPelletsWithinDistance_perm gs pos d
  have : gs.pellets.filter (fun p => decide (manhattanDistance pos p.position ≤ d)) = [] := by
    apply List.filter_eq_nil.2
    intro p hp
    simpa using h p hp
  rw [this] at hperm
  exact List.eq_nil_of_length_eq_zero (by simpa using hperm.length_eq)

theorem digitChar_toNat (d : ℕ) (hd : d < 10) : (digitChar d).toNat = 48 + d := by
  have hvalid : (48 + d).isValidChar := by
    left
    omega
  unfold digitChar Char.ofNat
  rw [dif_pos hvalid]
  rfl

theorem natChars_mem (n : ℕ) : ∀ c ∈ natChars n, ∃ d, d < 10 ∧ c = digitChar d := by
  induction n using Nat.strong_induction_on with
  | _ n ih =>
    intro c hc
    rw [natChars] at hc
    by_cases h : n < 10
    · simp [h] at hc
      exact ⟨n, h, hc⟩
    · simp [h] at hc
      rcases hc with hc | hc
      · exact ih (n / 10) (Nat.div_lt_self (by omega) (by omega)) c hc
      · exact ⟨n % 10, Nat.mod_lt _ (by omega), hc⟩

theorem natChars_ne_nil (n : ℕ) : natChars n ≠ [] := by
  rw [natChars]
  by_cases h : n < 10 <;> simp [h]

theorem digitChar_ne_comma (d : ℕ) (hd : d < 10) : digitChar d ≠ Char.ofNat 44 := by
  intro h
  have h1 := congrArg Char.toNat h
  rw [digitChar_toNat d hd] at h1
  have h2 : (Char.ofNat 44).toNat = 44 := by decide
  omega

theorem digitChar_ne_minus (d : ℕ) (hd : d < 10) : digitChar d ≠ Char.ofNat 45 := by
  intro h
  have h1 := congrArg Char.toNat h
  rw [digitChar_toNat d hd] at h1
  have h2 : (Char.ofNat 45).toNat = 45 := by decide
  omega

theorem intChars_ne_comma (i : ℤ) : ∀ c ∈ intChars i, c ≠ Char.ofNat 44 := by
  intro c hc
  rw [intChars] at hc
  by_cases h : i < 0
  · simp [h] at hc
    rcases hc with hc | hc
    · rw [hc]
      decide
    · obtain ⟨d, hd, rfl⟩ := natChars_mem _ c hc
      exact digitChar_ne_comma d hd
  · simp [h] at hc
    obtain ⟨d, hd, rfl⟩ := natChars_mem _ c hc
    exact digitChar_ne_comma d hd

theorem splitOnComma_append (a b : List Char) (ha : ∀ c ∈ a, c ≠ Char.ofNat 44) :
    splitOnComma (a ++ Char.ofNat 44 :: b) = a :: splitOnComma b := by
  induction a with
  | nil => simp [splitOnComma]
  | cons c t ih =>
    have hc : c ≠ Char.ofNat 44 := ha c (List.mem_cons_self _ _)
    have ht : ∀ x ∈ t, x ≠ Char.ofNat 44 := fun x hx => ha x (List.mem_cons_of_mem _ hx)
    rw [List.cons_append, splitOnComma]
    simp only [hc, if_false]
    rw [ih ht]

theorem parseNat_append_digit (ds : List Char) (c : Char) :
    parseNat (ds ++ [c]) = 10 * parseNat ds + (c.toNat - 48) := by
  simp [parseNat, List.foldl_append]

theorem parseNat_natChars (n : ℕ) : parseNat (natChars n) = n := by
  induction n using Nat.strong_induction_on with
  | _ n ih =>
    rw [natChars]
    by_cases h : n < 10
    · simp [h, parseNat, digitChar_toNat n h]
    · simp only [h, dite_false]
      rw [parseNat_append_digit, ih (n / 10) (Nat.div_lt_self (by omega) (by omega)),
        digitChar_toNat (n % 10) (Nat.mod_lt _ (by omega))]
      omega

theorem parseInt_intChars (i : ℤ) : parseInt (intChars i) = i := by
  rw [intChars]
  by_cases h : i < 0
  · simp only [h, if_true, parseInt, if_pos rfl, parseNat_natChars]
    omega
  · simp only [h, if_false]
    obtain ⟨c, t, hct⟩ : ∃ c t, natChars i.toNat = c :: t := by
      cases hn : natChars i.toNat with
      | nil => exact absurd hn (natChars_ne_nil _)
      | cons c t => exact ⟨c, t, rfl⟩
    obtain ⟨d, hd, hcd⟩ := natChars_mem i.toNat c (hct ▸ List.mem_cons_self _ _)
    rw [hct, parseInt, if_neg (hcd ▸ digitChar_ne_minus d hd), ← hct, parseNat_natChars]
    omega

/-! ### Round trip of the canonical position key -/

theorem splitOnComma_no_comma (b : List Char) (hb : ∀ c ∈ b, c ≠ Char.ofNat 44) :
    splitOnComma b = [b] := by
  induction b with
  | nil => rfl
  | cons c t ih =>
    have hc : c ≠ Char.ofNat 44 := hb c (List.mem_cons_self _ _)
    have ht : ∀ x ∈ t, x ≠ Char.ofNat 44 := fun x hx => hb x (List.mem_cons_of_mem _ hx)
    rw [splitOnComma]
    simp only [hc, if_false]
    rw [ih ht]

theorem keyToPosition_positionToKey (p : Pos) : keyToPosition (positionToKey p) = p := by
  show keyToPosition ⟨intChars p.x ++ Char.ofNat 44 :: intChars p.y⟩ = p
  unfold keyToPosition
  show (match splitOnComma (intChars p.x ++ Char.ofNat 44 :: intChars p.y) with
    | a :: b :: _ => (⟨parseInt a, parseInt b⟩ : Pos)
    | _ => ⟨0, 0⟩) = p
  rw [splitOnComma_append _ _ (intChars_ne_comma p.x),
    splitOnComma_no_comma _ (intChars_ne_comma p.y)]
  show (⟨parseInt (intChars p.x), parseInt (intChars p.y)⟩ : Pos) = p
  rw [parseInt_intChars, parseInt_intChars]

/-! ### Neighbor generation -/

theorem towardOrigin_eq_neg_sign (c : ℤ) : towardOrigin c = -c.sign := by
  unfold towardOrigin
  by_cases h : c = 0
  · simp [h]
  · have habs : |c| ≠ 0 := by simpa using h
    have h1 : -c = -c.sign * |c| := by
      rw [neg_mul, Int.sign_mul_abs]
    simp only [h, if_true, ne_eq, not_false_eq_true, if_pos]
    rw [h1, Int.mul_ediv_cancel _ habs]

theorem getNeighbors_characterization (p : Pos) :
    getNeighbors p = axisNeighbors p ++
      (if p.x ≠ 0 ∧ p.y ≠ 0 then [⟨p.x + -p.x.sign, p.y + -p.y.sign⟩] else []) := by
  unfold getNeighbors moveOffsets axisNeighbors
  by_cases hx : p.x = 0
  · simp only [List.filterMap, towardOrigin_eq_neg_sign, hx] <;> simp [hx] <;> omega
  · by_cases hy : p.y = 0
    · simp [List.filterMap, towardOrigin_eq_neg_sign, hy] <;> omega
    · have hsx : p.x.sign = 1 ∨ p.x.sign = -1 := by
        rcases lt_trichotomy p.x 0 with h | h | h
        · exact Or.inr (Int.sign_eq_neg_one_of_neg h)
        · exact absurd h hx
        · exact Or.inl (Int.sign_eq_one_of_pos h)
      have hsy : p.y.sign = 1 ∨ p.y.sign = -1 := by
        rcases lt_trichotomy p.y 0 with h | h | h
        · exact Or.inr (Int.sign_eq_neg_one_of_neg h)
        · exact absurd h hy
        · exact Or.inl (Int.sign_eq_one_of_pos h)
      rcases hsx with hsx | hsx <;> rcases hsy with hsy | hsy <;>
        simp [List.filterMap, towardOrigin_eq_neg_sign, hx, hy, hsx, hsy] <;> omega

theorem scanMin_aux (os : OpenSet) :
    ∀ (acc : Option (Pos × PathNode)) (e : Pos × PathNode),
      os.foldl
        (fun best x =>
          match best with
          | none => some x
          | some b => if x.2.f < b.2.f then some x else best)
        acc = some e → acc = some e ∨ e ∈ os := by
  induction os with
  | nil => intro acc e h; exact Or.inl h
  | cons x t ih =>
    intro acc e h
    rcases ih _ e h with h1 | h1
    · match acc with
      | none =>
        simp at h1
        exact Or.inr (h1 ▸ List.mem_cons_self _ _)
      | some b =>
        simp only at h1
        split at h1
        · exact Or.inr (by simp at h1; exact h1 ▸ List.mem_cons_self _ _)
        · exact Or.inl h1
    · exact Or.inr (List.mem_cons_of_mem _ h1)

theorem scanMin_mem (os : OpenSet) (e : Pos × PathNode) (h : scanMin os = some e) :
    e ∈ os := by
  rcases scanMin_aux os none e h with h1 | h1
  · exact absurd h1 (by simp)
  · exact h1

theorem scanMin_some_aux (os : OpenSet) :
    ∀ b : Pos × PathNode,
      (os.foldl
        (fun best x =>
          match best with
          | none => some x
          | some b => if x.2.f < b.2.f then some x else best)
        (some b)).isSome := by
  induction os with
  | nil => intro b; rfl
  | cons x t ih =>
    intro b
    simp only [List.foldl_cons]
    split
    · exact ih _
    · exact ih _

theorem scanMin_nil_of_none (os : OpenSet) (h : scanMin os = none) : os = [] := by
  cases os with
  | nil => rfl
  | cons x t =>
    exfalso
    have h1 := scanMin_some_aux t x
    unfold scanMin at h
    simp only [List.foldl_cons] at h
    rw [h] at h1
    exact absurd h1 (by simp)

theorem osSet_mem (os : OpenSet) (k : Pos) (n : PathNode) (e : Pos × PathNode)
    (h : e ∈ osSet os k n) : e ∈ os ∨ e = (k, n) := by
  unfold osSet at h
  split at h
  · rcases List.mem_map.1 h with ⟨a, ha, hae⟩
    by_cases hk : a.1 = k
    · simp only [hk, if_true] at hae
      exact Or.inr hae.symm
    · simp only [hk, if_false] at hae
      exact Or.inl (hae ▸ ha)
  · rcases List.mem_append.1 h with h1 | h1
    · exact Or.inl h1
    · exact Or.inr (by simpa using h1)

theorem osDelete_mem (os : OpenSet) (k : Pos) (e : Pos × PathNode)
    (h : e ∈ osDelete os k) : e ∈ os :=
  List.mem_of_mem_filter h

theorem expandNeighbor_ok (gs : GameState) (goal : Pos) (cp : Bool) (start : Pos) (F : ℤ)
    (closed : List Pos) (cur : PathNode) (os : OpenSet) (npos : Pos)
    (hos : OSOk gs cp start F os) (hcur : NodeOk gs cp start F cur) :
    OSOk gs cp start F (expandNeighbor gs goal cp closed cur os npos) := by
  unfold expandNeighbor
  split
  · exact hos
  next hclosed =>
    split
    · exact hos
    next hfuel =>
      have hnew : NodeOk gs cp start F
          { position := npos, g := cur.g + 1, h := manhattanDistance npos goal,
            f := cur.g + 1 + manhattanDistance npos goal,
            fuel := stepFuel gs cp cur.fuel npos,
            parent := (cur.position, cur.fuel) :: cur.parent } := by
        refine ⟨by omega, rfl, hcur⟩
      have hset : OSOk gs cp start F (osSet os npos
          { position := npos, g := cur.g + 1, h := manhattanDistance npos goal,
            f := cur.g + 1 + manhattanDistance npos goal,
            fuel := stepFuel gs cp cur.fuel npos,
            parent := (cur.position, cur.fuel) :: cur.parent }) := by
        intro e he
        rcases osSet_mem _ _ _ _ he with h1 | h1
        · exact hos _ h1
        · rw [h1]
          exact hnew
      split
      next existing heq =>
        show OSOk gs cp start F
          (if stepFuel gs cp cur.fuel npos < manhattanDistance npos goal ∧
              ¬ hasPelletOnPath gs npos goal (stepFuel gs cp cur.fuel npos) = true then os
           else if existing.g ≤ cur.g + 1 then os
           else osSet os npos
             { position := npos, g := cur.g + 1, h := manhattanDistance npos goal,
               f := cur.g + 1 + manhattanDistance npos goal,
               fuel := stepFuel gs cp cur.fuel npos,
               parent := (cur.position, cur.fuel) :: cur.parent })
        split
        · exact hos
        · split
          · exact hos
          · exact hset
      next heq =>
        show OSOk gs cp start F
          (if stepFuel gs cp cur.fuel npos < manhattanDistance npos goal ∧
              ¬ hasPelletOnPath gs npos goal (stepFuel gs cp cur.fuel npos) = true then os
           else osSet os npos
             { position := npos, g := cur.g + 1, h := manhattanDistance npos goal,
               f := cur.g + 1 + manhattanDistance npos goal,
               fuel := stepFuel gs cp cur.fuel npos,
               parent := (cur.position, cur.fuel) :: cur.parent })
        split
        · exact hos
        · exact hset

theorem foldl_expand_ok (gs : GameState) (goal : Pos) (cp : Bool) (start : Pos) (F : ℤ)
    (closed : List Pos) (cur : PathNode) (hcur : NodeOk gs cp start F cur) :
    ∀ (ns : List Pos) (os : OpenSet), OSOk gs cp start F os →
      OSOk gs cp start F (ns.foldl (expandNeighbor gs goal cp closed cur) os) := by
  intro ns
  induction ns with
  | nil => intro os hos; exact hos
  | cons x t ih =>
    intro os hos
    exact ih _ (expandNeighbor_ok gs goal cp start F closed cur os x hos hcur)

theorem findPathLoop_spec (gs : GameState) (goal : Pos) (cp : Bool) (start : Pos) (F : ℤ) :
    ∀ (budget : ℕ) (os : OpenSet) (closed : List Pos), OSOk gs cp start F os →
      findPathLoop gs goal cp budget os closed = failPath ∨
      ∃ n : PathNode, NodeOk gs cp start F n ∧ n.position = goal ∧
        findPathLoop gs goal cp budget os closed = reconstructPath gs n := by
  intro budget
  induction budget with
  | zero => intro os closed _; exact Or.inl rfl
  | succ k ih =>
    intro os closed hos
    rw [findPathLoop]
    cases hscan : scanMin os with
    | none => exact Or.inl rfl
    | some e =>
      obtain ⟨key, cur⟩ := e
      have hcur : NodeOk gs cp start F cur := hos _ (scanMin_mem _ _ hscan)
      by_cases hgoal : cur.position = goal
      · right
        exact ⟨cur, hcur, hgoal, by simp [hgoal]⟩
      · have hres := ih
          ((getNeighbors cur.position).foldl
            (expandNeighbor gs goal cp (key :: closed) cur) (osDelete os key))
          (key :: closed)
          (foldl_expand_ok gs goal cp start F _ cur hcur _ _
            (fun e he => hos _ (osDelete_mem _ _ _ he)))
        simpa [hgoal] using hres

theorem findPath_spec (gs : GameState) (start goal : Pos) (F : ℤ) (cp : Bool) :
    findPath gs start goal F cp = failPath ∨
    ∃ n : PathNode, NodeOk gs cp start F n ∧ n.position = goal ∧
      findPath gs start goal F cp = reconstructPath gs n := by
  unfold findPath
  refine findPathLoop_spec gs goal cp start F 1000 _ [] ?_
  intro e he
  simp only [List.mem_singleton] at he
  rw [he]
  exact ⟨rfl, rfl⟩

/-! ### Properties of `reconstructPath` -/

theorem reconstructPath_success (gs : GameState) (n : PathNode) :
    (reconstructPath gs n).success = true := rfl

theorem reconstructPath_nodes (gs : GameState) (n : PathNode) :
    (reconstructPath gs n).nodes = chainNodes n.position n.fuel n.parent := rfl

theorem chainNodes_length (p : Pos) (f : ℤ) (ps : List (Pos × ℤ)) :
    (chainNodes p f ps).length = ps.length + 1 := by
  simp [chainNodes]

theorem chainNodes_ne_nil (p : Pos) (f : ℤ) (ps : List (Pos × ℤ)) :
    chainNodes p f ps ≠ [] := by
  intro h
  have := chainNodes_length p f ps
  rw [h] at this
  simp at this

theorem chainNodes_cons (p : Pos) (f : ℤ) (q : Pos) (fq : ℤ) (rest : List (Pos × ℤ)) :
    chainNodes p f ((q, fq) :: rest) = chainNodes q fq rest ++ [p] := by
  simp [chainNodes]

theorem chainNodes_getLast (p : Pos) (f : ℤ) (ps : List (Pos × ℤ)) :
    (chainNodes p f ps).getLast? = some p := by
  unfold chainNodes
  rw [List.map_reverse, List.getLast?_reverse]
  rfl

theorem reconstructPath_totalCost (gs : GameState) (n : PathNode) :
    (reconstructPath gs n).totalCost =
      some (((reconstructPath gs n).nodes.length : ℤ) - 1) := by
  rw [reconstructPath_nodes, chainNodes_length]
  show some ((n.parent.length : ℤ)) = _
  push_cast
  ring_nf

theorem reconstructPath_getLast (gs : GameState) (n : PathNode) :
    (reconstructPath gs n).nodes.getLast? = some n.position := by
  rw [reconstructPath_nodes, chainNodes_getLast]

theorem chainNodes_head (gs : GameState) (cp : Bool) (start : Pos) (F : ℤ) :
    ∀ (ps : List (Pos × ℤ)) (p : Pos) (f : ℤ), ChainOk gs cp start F p f ps →
      (chainNodes p f ps).head? = some start := by
  intro ps
  induction ps with
  | nil =>
    intro p f hok
    obtain ⟨hp, hf⟩ := hok
    rw [hp]
    rfl
  | cons e rest ih =>
    intro p f hok
    obtain ⟨q, fq⟩ := e
    obtain ⟨h1, h2, h3⟩ := hok
    rw [chainNodes_cons]
    rw [List.head?_append_of_ne_nil _ (chainNodes_ne_nil q fq rest)]
    exact ih q fq h3

/-! ### Properties of the path simulator -/

theorem simFuel_append (gs : GameState) (xs ys : List Pos) :
    ∀ f : ℤ, simFuel gs f (xs ++ ys) =
      (simFuel gs f xs).bind fun g => simFuel gs g ys := by
  induction xs with
  | nil => intro f; rfl
  | cons p rest ih =>
    intro f
    rw [List.cons_append]
    show (if f - 1 < 0 then none else simFuel gs _ (rest ++ ys)) =
      ((if f - 1 < 0 then none else simFuel gs _ rest).bind fun g => simFuel gs g ys)
    by_cases h : f - 1 < 0
    · rw [if_pos h, if_pos h]
      rfl
    · rw [if_neg h, if_neg h, ih]

theorem simFuel_single (gs : GameState) (f : ℤ) (p : Pos) :
    simFuel gs f [p] = if f - 1 < 0 then none else some (stepFuel gs true f p) := by
  show (if f - 1 < 0 then none else simFuel gs _ []) = _
  by_cases h : f - 1 < 0
  · rw [if_pos h, if_pos h]
  · rw [if_neg h, if_neg h]
    rfl

theorem simFuel_cons (gs : GameState) (f : ℤ) (p : Pos) (rest : List Pos) :
    simFuel gs f (p :: rest) =
      if f - 1 < 0 then none else simFuel gs (stepFuel gs true f p) rest := rfl

theorem stepFuel_true_mono (gs : GameState) (f g : ℤ) (p : Pos) (hfg : f ≤ g) :
    stepFuel gs true f p ≤ stepFuel gs true g p := by
  unfold stepFuel
  cases hp : getPelletAt gs p with
  | none => simp only [hp]; omega
  | some pellet =>
    simp only [hp]
    exact min_le_min le_rfl (by omega)

theorem stepFuel_true_bounds (gs : GameState) (hpel : ∀ pel ∈ gs.pellets, 0 ≤ pel.fuel)
    (f : ℤ) (p : Pos) (hf5 : f ≤ maxShipFuel) :
    f - 1 ≤ stepFuel gs true f p ∧ stepFuel gs true f p ≤ maxShipFuel := by
  unfold stepFuel
  cases hp : getPelletAt gs p with
  | none =>
    simp only [hp]
    constructor <;> omega
  | some pellet =>
    have hp0 : 0 ≤ pellet.fuel := hpel _ (List.mem_of_find?_eq_some hp)
    simp only [hp]
    constructor
    · exact le_min (by omega) (by omega)
    · exact min_le_left _ _

theorem simFuel_mono (gs : GameState) :
    ∀ (xs : List Pos) (f g rf : ℤ), f ≤ g → simFuel gs f xs = some rf →
      ∃ rg, simFuel gs g xs = some rg ∧ rf ≤ rg := by
  intro xs
  induction xs with
  | nil =>
    intro f g rf hfg hf
    have hfr : f = rf := by simpa [simFuel] using hf
    exact ⟨g, rfl, hfr ▸ hfg⟩
  | cons p rest ih =>
    intro f g rf hfg hf
    rw [simFuel_cons] at hf
    by_cases h : f - 1 < 0
    · rw [if_pos h] at hf
      exact absurd hf (by simp)
    · rw [if_neg h] at hf
      rw [simFuel_cons, if_neg (show ¬ g - 1 < 0 by omega)]
      exact ih _ _ _ (stepFuel_true_mono gs f g p hfg) hf

theorem getPelletAt_mem (gs : GameState) (pos : Pos) (pel : Pellet)
    (h : getPelletAt gs pos = some pel) : pel ∈ gs.pellets :=
  List.mem_of_find?_eq_some h

/-- Replaying the chain of a well-formed node of a pellet-aware search
(`considerPellets = true`) reproduces exactly the recorded fuel values. -/
theorem sim_exact (gs : GameState) (start : Pos) (F : ℤ) :
    ∀ (ps : List (Pos × ℤ)) (p : Pos) (f : ℤ), ChainOk gs true start F p f ps →
      simFuel gs F ((chainNodes p f ps).drop 1) = some f := by
  intro ps
  induction ps with
  | nil =>
    intro p f hok
    obtain ⟨hp, hf⟩ := hok
    rw [hf]
    rfl
  | cons e rest ih =>
    intro p f hok
    obtain ⟨q, fq⟩ := e
    obtain ⟨h1, h2, h3⟩ := hok
    rw [chainNodes_cons]
    obtain ⟨a, t, hat⟩ : ∃ a t, chainNodes q fq rest = a :: t := by
      cases hc : chainNodes q fq rest with
      | nil => exact absurd hc (chainNodes_ne_nil q fq rest)
      | cons a t => exact ⟨a, t, rfl⟩
    have ihq := ih q fq h3
    rw [hat] at ihq
    rw [List.drop_one, List.tail_cons] at ihq
    rw [hat, List.cons_append, List.drop_one, List.tail_cons, simFuel_append, ihq]
    show simFuel gs fq [p] = some f
    rw [simFuel_single, if_neg (by omega), h2]

theorem stepFuel_false (gs : GameState) (f : ℤ) (p : Pos) :
    stepFuel gs false f p = f - 1 := rfl

theorem chainOk_false_fuel (gs : GameState) (start : Pos) (F : ℤ) :
    ∀ (ps : List (Pos × ℤ)) (p : Pos) (f : ℤ), ChainOk gs false start F p f ps →
      f = F - ps.length := by
  intro ps
  induction ps with
  | nil =>
    intro p f hok
    rw [hok.2]
    simp
  | cons e rest ih =>
    intro p f hok
    obtain ⟨q, fq⟩ := e
    obtain ⟨h1, h2, h3⟩ := hok
    have := ih q fq h3
    rw [h2, stepFuel_false]
    simp only [List.length_cons]
    push_cast
    omega

/-- Replaying (with pellets) the chain of a node of a pellet-blind search
(`considerPellets = false`) never runs out of fuel and ends with at least
the recorded fuel, as long as the start fuel does not exceed capacity and
pellet amounts are nonnegative. -/
theorem sim_dominate (gs : GameState) (hpel : ∀ pel ∈ gs.pellets, 0 ≤ pel.fuel)
    (start : Pos) (F : ℤ) (hF : F ≤ maxShipFuel) :
    ∀ (ps : List (Pos × ℤ)) (p : Pos) (f : ℤ), ChainOk gs false start F p f ps →
      ∃ s, simFuel gs F ((chainNodes p f ps).drop 1) = some s ∧ f ≤ s ∧ s ≤ maxShipFuel := by
  intro ps
  induction ps with
  | nil =>
    intro p f hok
    exact ⟨F, rfl, le_of_eq hok.2, hF⟩
  | cons e rest ih =>
    intro p f hok
    obtain ⟨q, fq⟩ := e
    obtain ⟨h1, h2, h3⟩ := hok
    rw [chainNodes_cons]
    obtain ⟨a, t, hat⟩ : ∃ a t, chainNodes q fq rest = a :: t := by
      cases hc : chainNodes q fq rest with
      | nil => exact absurd hc (chainNodes_ne_nil q fq rest)
      | cons a t => exact ⟨a, t, rfl⟩
    obtain ⟨s0, hs0, hs0ge, hs0le⟩ := ih q fq h3
    rw [hat] at hs0
    rw [List.drop_one, List.tail_cons] at hs0
    rw [hat, List.cons_append, List.drop_one, List.tail_cons, simFuel_append, hs0]
    have hbounds := stepFuel_true_bounds gs hpel s0 p hs0le
    refine ⟨stepFuel gs true s0 p, ?_, ?_, hbounds.2⟩
    · show simFuel gs s0 [p] = _
      rw [simFuel_single, if_neg (by omega)]
    · rw [h2, stepFuel_false]
      omega

/-- As `sim_dominate`, but when a pellet sits at the chain's final
position: the replay ends with at least the refueled amount computed from
the recorded final fuel. -/
theorem sim_leg1_waypoint (gs : GameState) (hpel : ∀ pel ∈ gs.pellets, 0 ≤ pel.fuel)
    (start : Pos) (F : ℤ) (hF : F ≤ maxShipFuel) (p : Pos) (f : ℤ) (q : Pos) (fq : ℤ)
    (rest : List (Pos × ℤ)) (hok : ChainOk gs false start F p f ((q, fq) :: rest))
    (pel : Pellet) (hpelat : getPelletAt gs p = some pel) :
    ∃ s, simFuel gs F ((chainNodes p f ((q, fq) :: rest)).drop 1) = some s ∧
      min maxShipFuel (f + pel.fuel) ≤ s ∧ s ≤ maxShipFuel := by
  obtain ⟨h1, h2, h3⟩ := hok
  rw [chainNodes_cons]
  obtain ⟨a, t, hat⟩ : ∃ a t, chainNodes q fq rest = a :: t := by
    cases hc : chainNodes q fq rest with
    | nil => exact absurd hc (chainNodes_ne_nil q fq rest)
    | cons a t => exact ⟨a, t, rfl⟩
  obtain ⟨s0, hs0, hs0ge, hs0le⟩ := sim_dominate gs hpel start F hF rest q fq h3
  rw [hat] at hs0
  rw [List.drop_one, List.tail_cons] at hs0
  rw [hat, List.cons_append, List.drop_one, List.tail_cons, simFuel_append, hs0]
  refine ⟨stepFuel gs true s0 p, ?_, ?_, (stepFuel_true_bounds gs hpel s0 p hs0le).2⟩
  · show simFuel gs s0 [p] = _
    rw [simFuel_single, if_neg (by omega)]
  · unfold stepFuel
    simp only [hpelat, if_true]
    have hfle : f ≤ s0 - 1 := by
      rw [h2, stepFuel_false]
      omega
    exact min_le_min le_rfl (by omega)

/-- In a snapshot with pairwise distinct pellet positions (a valid map),
`getPelletAt` at the position of a stored pellet returns that pellet. -/
theorem find?_position_of_mem :
    ∀ l : List Pellet, l.Pairwise (fun a b => a.position ≠ b.position) →
      ∀ pel ∈ l, l.find? (fun p => decide (p.position = pel.position)) = some pel := by
  intro l
  induction l with
  | nil => intro _ pel h; exact absurd h (by simp)
  | cons x t ih =>
    intro hdist pel hmem
    rcases List.mem_cons.1 hmem with h | h
    · rw [h]
      simp [List.find?_cons]
    · have hx : x.position ≠ pel.position := (List.pairwise_cons.1 hdist).1 _ h
      rw [List.find?_cons, show decide (x.position = pel.position) = false by simpa using hx]
      exact ih (List.pairwise_cons.1 hdist).2 pel h

theorem getPelletAt_of_mem (gs : GameState)
    (hdist : gs.pellets.Pairwise (fun a b => a.position ≠ b.position))
    (pel : Pellet) (hmem : pel ∈ gs.pellets) :
    getPelletAt gs pel.position = some pel :=
  find?_position_of_mem gs.pellets hdist pel hmem

theorem getPelletAt_isSome_of_mem (gs : GameState) (pel : Pellet) (hmem : pel ∈ gs.pellets) :
    getPelletAt gs pel.position ≠ none := by
  intro hnone
  have : (gs.pellets.find? fun p => decide (p.position = pel.position)).isSome := by
    rw [List.find?_isSome]
    exact ⟨pel, hmem, by simp⟩
  rw [show (gs.pellets.find? fun p => decide (p.position = pel.position)) =
    getPelletAt gs pel.position from rfl, hnone] at this
  exact absurd this (by simp)

theorem dropLast_append_cons {α : Type} (l : List α) (x : α) (t : List α)
    (h : l.getLast? = some x) : l.dropLast ++ x :: t = l ++ t := by
  cases hl : l with
  | nil => rw [hl] at h; exact absurd h (by simp)
  | cons a l1 =>
    rw [← hl]
    have hne : l ≠ [] := by rw [hl]; simp
    have hx : l.getLast hne = x := by
      rw [List.getLast?_eq_getLast l hne] at h
      exact (Option.some_inj.1 h)
    calc l.dropLast ++ x :: t = (l.dropLast ++ [x]) ++ t := by simp
    _ = l ++ t := by rw [← hx, List.dropLast_append_getLast hne]

/-! ### Packaged facts about `findPath` -/

theorem findPath_success_node (gs : GameState) (start goal : Pos) (F : ℤ) (cp : Bool)
    (h : (findPath gs start goal F cp).success = true) :
    ∃ n : PathNode, NodeOk gs cp start F n ∧ n.position = goal ∧
      findPath gs start goal F cp = reconstructPath gs n := by
  rcases findPath_spec gs start goal F cp with hfail | hnode
  · rw [hfail] at h
    exact absurd h (by simp [failPath])
  · exact hnode

theorem findPath_success_cost (gs : GameState) (start goal : Pos) (F : ℤ) (cp : Bool)
    (h : (findPath gs start goal F cp).success = true) :
    (findPath gs start goal F cp).totalCost =
      some (((findPath gs start goal F cp).nodes.length : ℤ) - 1) ∧
      (findPath gs start goal F cp).nodes ≠ [] := by
  obtain ⟨n, _, _, heq⟩ := findPath_success_node gs start goal F cp h
  rw [heq]
  exact ⟨reconstructPath_totalCost gs n, by
    rw [reconstructPath_nodes]
    exact chainNodes_ne_nil _ _ _⟩

theorem findPath_success_getLast (gs : GameState) (start goal : Pos) (F : ℤ) (cp : Bool)
    (h : (findPath gs start goal F cp).success = true) :
    (findPath gs start goal F cp).nodes.getLast? = some goal := by
  obtain ⟨n, _, hpos, heq⟩ := findPath_success_node gs start goal F cp h
  rw [heq, reconstructPath_getLast, hpos]

theorem findPath_success_head (gs : GameState) (start goal : Pos) (F : ℤ) (cp : Bool)
    (h : (findPath gs start goal F cp).success = true) :
    (findPath gs start goal F cp).nodes.head? = some start := by
  obtain ⟨n, hok, _, heq⟩ := findPath_success_node gs start goal F cp h
  rw [heq, reconstructPath_nodes]
  exact chainNodes_head gs cp start F n.parent n.position n.fuel hok

/-- The planner/simulator consistency for `findPath` with pellets
considered: the recorded fuels are exactly the replay, so the replay
succeeds, for any start fuel. -/
theorem findPath_sim_true (gs : GameState) (start goal : Pos) (F : ℤ)
    (h : (findPath gs start goal F true).success = true) :
    simulatePath gs (findPath gs start goal F true).nodes F = true := by
  obtain ⟨n, hok, _, heq⟩ := findPath_success_node gs start goal F true h
  rw [heq, reconstructPath_nodes]
  unfold simulatePath
  rw [sim_exact gs start F n.parent n.position n.fuel hok]
  rfl

/-- The planner/simulator consistency for a pellet-blind `findPath`
(`considerPellets = false`): the replay (which does refuel) dominates the
recorded fuels whenever the start fuel is within capacity and pellet
amounts are nonnegative. -/
theorem findPath_sim_false (gs : GameState) (hpel : ∀ pel ∈ gs.pellets, 0 ≤ pel.fuel)
    (start goal : Pos) (F : ℤ) (hF : F ≤ maxShipFuel)
    (h : (findPath gs start goal F false).success = true) :
    simulatePath gs (findPath gs start goal F false).nodes F = true := by
  obtain ⟨n, hok, _, heq⟩ := findPath_success_node gs start goal F false h
  rw [heq, reconstructPath_nodes]
  unfold simulatePath
  obtain ⟨s, hs, -, -⟩ := sim_dominate gs hpel start F hF n.parent n.position n.fuel hok
  rw [hs]
  rfl

/-! ### The two-leg compositions of `findPathWithRefueling` -/

theorem twoLegPath_some (gs : GameState) (start goal : Pos) (F : ℤ) (pellet : Pellet)
    (path : Path) (c : ℤ) (h : twoLegPath gs start goal F pellet = some (path, c)) :
    ∃ c1 c2,
      (findPath gs start pellet.position F false).success = true ∧
      (findPath gs start pellet.position F false).totalCost = some c1 ∧
      (findPath gs pellet.position goal (min maxShipFuel (F - c1 + pellet.fuel))
        true).success = true ∧
      (findPath gs pellet.position goal (min maxShipFuel (F - c1 + pellet.fuel))
        true).totalCost = some c2 ∧
      c = c1 + c2 ∧
      path = { nodes := (findPath gs start pellet.position F false).nodes.dropLast ++
                 (findPath gs pellet.position goal (min maxShipFuel (F - c1 + pellet.fuel))
                   true).nodes,
               totalCost := some (c1 + c2),
               fuelStops := pellet.position ::
                 (findPath gs pellet.position goal (min maxShipFuel (F - c1 + pellet.fuel))
                   true).fuelStops,
               success := true } := by
  unfold twoLegPath at h
  dsimp only at h
  split at h
  next h1succ =>
    split at h
    next => exact absurd h (by simp)
    next c1 hc1 =>
      split at h
      next h2succ =>
        split at h
        next => exact absurd h (by simp)
        next c2 hc2 =>
          obtain ⟨hpath, hc⟩ := Prod.mk.injEq .. ▸ Option.some_inj.1 h
          exact ⟨c1, c2, h1succ, hc1, h2succ, hc2, hc.symm, hpath.symm⟩
      next => exact absurd h (by simp)
  next => exact absurd h (by simp)

theorem refuelCandidateStep_result (gs : GameState) (start goal : Pos) (F : ℤ)
    (acc : Path × Option ℤ) (pellet : Pellet) :
    refuelCandidateStep gs start goal F acc pellet = acc ∨
    ∃ path c, twoLegPath gs start goal F pellet = some (path, c) ∧
      refuelCandidateStep gs start goal F acc pellet = (path, some c) := by
  unfold refuelCandidateStep
  split
  next => exact Or.inl rfl
  next path c heq =>
    split
    · exact Or.inr ⟨path, c, heq, rfl⟩
    · exact Or.inl rfl

theorem withRefueling_result (gs : GameState) (start goal : Pos) (F : ℤ) :
    findPathWithRefueling gs start goal F = findPath gs start goal F true ∨
    ((findPath gs start goal F true).success = false ∧
      findPathWithRefueling gs start goal F =
        (((getAllPellets gs).filter fun p =>
            decide (manhattanDistance start p.position ≤ F)).foldl
          (refuelCandidateStep gs start goal F)
          (findPath gs start goal F true, none)).1) := by
  unfold findPathWithRefueling
  dsimp only
  split
  · exact Or.inl rfl
  next hd =>
    split
    · exact Or.inl rfl
    · exact Or.inr ⟨by simpa using hd, rfl⟩

theorem foldl_refuel_pred (gs : GameState) (start goal : Pos) (F : ℤ) (P : Path → Prop) :
    ∀ l : List Pellet,
      (∀ pellet ∈ l, ∀ path c,
        twoLegPath gs start goal F pellet = some (path, c) → P path) →
      ∀ acc : Path × Option ℤ, P acc.1 →
        P ((l.foldl (refuelCandidateStep gs start goal F) acc).1) := by
  intro l
  induction l with
  | nil => intro _ acc h; exact h
  | cons pellet t ih =>
    intro hstep acc hacc
    rw [List.foldl_cons]
    refine ih (fun q hq => hstep q (List.mem_cons_of_mem _ hq)) _ ?_
    rcases refuelCandidateStep_result gs start goal F acc pellet with heq | ⟨path, c, htwo, heq⟩
    · rw [heq]
      exact hacc
    · rw [heq]
      exact hstep pellet (List.mem_cons_self _ _) path c htwo

theorem twoLegPath_shape (gs : GameState) (start goal : Pos) (F : ℤ) (pellet : Pellet)
    (path : Path) (c : ℤ) (h : twoLegPath gs start goal F pellet = some (path, c)) :
    path.success = true ∧
      path.totalCost = some ((path.nodes.length : ℤ) - 1) ∧ path.nodes ≠ [] := by
  obtain ⟨c1, c2, h1succ, hc1, h2succ, hc2, -, hpath⟩ :=
    twoLegPath_some gs start goal F pellet path c h
  obtain ⟨hcost1, hne1⟩ := findPath_success_cost gs start pellet.position F false h1succ
  obtain ⟨hcost2, hne2⟩ := findPath_success_cost gs pellet.position goal
    (min maxShipFuel (F - c1 + pellet.fuel)) true h2succ
  rw [hc1] at hcost1
  rw [hc2] at hcost2
  have hc1v : c1 = ((findPath gs start pellet.position F false).nodes.length : ℤ) - 1 :=
    Option.some_inj.1 hcost1
  have hc2v : c2 = ((findPath gs pellet.position goal
      (min maxShipFuel (F - c1 + pellet.fuel)) true).nodes.length : ℤ) - 1 :=
    Option.some_inj.1 hcost2
  have hl1 : 1 ≤ (findPath gs start pellet.position F false).nodes.length :=
    List.length_pos.2 hne1
  have hl2 : 1 ≤ (findPath gs pellet.position goal
      (min maxShipFuel (F - c1 + pellet.fuel)) true).nodes.length :=
    List.length_pos.2 hne2
  rw [hpath]
  refine ⟨rfl, ?_, ?_⟩
  · refine congrArg some ?_
    simp only [List.length_append, List.length_dropLast]
    have hcast : ((((findPath gs start pellet.position F false).nodes.length - 1 +
        (findPath gs pellet.position goal (min maxShipFuel (F - c1 + pellet.fuel))
          true).nodes.length : ℕ)) : ℤ) =
        ((findPath gs start pellet.position F false).nodes.length : ℤ) - 1 +
        ((findPath gs pellet.position goal (min maxShipFuel (F - c1 + pellet.fuel))
          true).nodes.length : ℤ) := by
      push_cast [Nat.cast_sub hl1]
      ring
    rw [hcast]
    omega
  · simp only [ne_eq, List.append_eq_nil, not_and]
    intro _
    exact hne2

theorem withRefueling_success_cost (gs : GameState) (start goal : Pos) (F : ℤ)
    (h : (findPathWithRefueling gs start goal F).success = true) :
    (findPathWithRefueling gs start goal F).totalCost =
      some (((findPathWithRefueling gs start goal F).nodes.length : ℤ) - 1) ∧
      (findPathWithRefueling gs start goal F).nodes ≠ [] := by
  rcases withRefueling_result gs start goal F with heq | ⟨hd, heq⟩
  · rw [heq] at h ⊢
    exact findPath_success_cost gs start goal F true h
  · rw [heq] at h ⊢
    refine foldl_refuel_pred gs start goal F
      (fun path => path.success = true →
        path.totalCost = some ((path.nodes.length : ℤ) - 1) ∧ path.nodes ≠ [])
      _ ?_ _ ?_ h
    · intro pellet _ path c htwo _
      obtain ⟨-, hshape⟩ := twoLegPath_shape gs start goal F pellet path c htwo
      exact hshape
    · intro hs
      rw [hd] at hs
      exact absurd hs (by simp)

/-- Replay consistency of a two-leg composed path, under the validity
conditions: nonnegative pellet amounts, pairwise distinct pellet positions,
start fuel within capacity, and no pellet at the start position. -/
theorem twoLegPath_sim (gs : GameState) (hpel : ∀ pel ∈ gs.pellets, 0 ≤ pel.fuel)
    (hdist : gs.pellets.Pairwise (fun a b => a.position ≠ b.position))
    (start goal : Pos) (F : ℤ) (hF : F ≤ maxShipFuel)
    (hstart : getPelletAt gs start = none) (pellet : Pellet) (hmem : pellet ∈ gs.pellets)
    (path : Path) (c : ℤ) (h : twoLegPath gs start goal F pellet = some (path, c)) :
    simulatePath gs path.nodes F = true := by
  obtain ⟨c1, c2, h1succ, hc1, h2succ, hc2, -, hpath⟩ :=
    twoLegPath_some gs start goal F pellet path c h
  obtain ⟨n1, hok1, hpos1, heq1⟩ := findPath_success_node gs start pellet.position F false h1succ
  obtain ⟨n2, hok2, hpos2, heq2⟩ := findPath_success_node gs pellet.position goal
    (min maxShipFuel (F - c1 + pellet.fuel)) true h2succ
  have hc1v : (n1.parent.length : ℤ) = c1 := by
    rw [heq1] at hc1
    exact Option.some_inj.1 hc1
  have hne1 : n1.parent ≠ [] := by
    intro hnil
    have hp1 : n1.position = start := by
      have hok1n := hok1
      unfold NodeOk at hok1n
      rw [hnil] at hok1n
      exact hok1n.1
    refine getPelletAt_isSome_of_mem gs pellet hmem ?_
    rw [show pellet.position = start from hpos1 ▸ hp1]
    exact hstart
  obtain ⟨e1, rest, hparent⟩ : ∃ e rest, n1.parent = e :: rest := by
    cases hp : n1.parent with
    | nil => exact absurd hp hne1
    | cons e rest => exact ⟨e, rest, rfl⟩
  obtain ⟨q, fq⟩ := e1
  have hpelat : getPelletAt gs n1.position = some pellet := by
    rw [hpos1]
    exact getPelletAt_of_mem gs hdist pellet hmem
  have hok1c : ChainOk gs false start F n1.position n1.fuel ((q, fq) :: rest) :=
    hparent ▸ hok1
  obtain ⟨s1, hs1, hs1ge, hs1le⟩ :=
    sim_leg1_waypoint gs hpel start F hF n1.position n1.fuel q fq rest hok1c pellet hpelat
  have hfuel1 : n1.fuel = F - c1 := by
    have hcf := chainOk_false_fuel gs start F n1.parent n1.position n1.fuel hok1
    rw [hcf, hc1v]
  have hfa : min maxShipFuel (F - c1 + pellet.fuel) ≤ s1 := by
    rw [← hfuel1]
    exact hs1ge
  have hsim2 := sim_exact gs pellet.position (min maxShipFuel (F - c1 + pellet.fuel))
    n2.parent n2.position n2.fuel hok2
  obtain ⟨r2, hr2, -⟩ := simFuel_mono gs _ _ _ _ hfa hsim2
  have hnodes1 : (findPath gs start pellet.position F false).nodes =
      chainNodes n1.position n1.fuel n1.parent := by
    rw [heq1, reconstructPath_nodes]
  have hnodes2 : (findPath gs pellet.position goal
      (min maxShipFuel (F - c1 + pellet.fuel)) true).nodes =
      chainNodes n2.position n2.fuel n2.parent := by
    rw [heq2, reconstructPath_nodes]
  have hhead2 : (chainNodes n2.position n2.fuel n2.parent).head? = some pellet.position :=
    chainNodes_head gs true pellet.position (min maxShipFuel (F - c1 + pellet.fuel))
      n2.parent n2.position n2.fuel hok2
  obtain ⟨t2, ht2⟩ : ∃ t2, chainNodes n2.position n2.fuel n2.parent =
      pellet.position :: t2 := by
    cases hcn : chainNodes n2.position n2.fuel n2.parent with
    | nil => exact absurd (hcn ▸ hhead2) (by simp)
    | cons a t =>
      rw [hcn] at hhead2
      simp only [List.head?_cons, Option.some_inj] at hhead2
      exact ⟨t, by rw [hhead2]⟩
  have hlast1 : (chainNodes n1.position n1.fuel n1.parent).getLast? = some pellet.position := by
    rw [chainNodes_getLast, hpos1]
  obtain ⟨a1, t1, hat1⟩ : ∃ a t, chainNodes n1.position n1.fuel n1.parent = a :: t := by
    cases hcn : chainNodes n1.position n1.fuel n1.parent with
    | nil => exact absurd hcn (chainNodes_ne_nil _ _ _)
    | cons a t => exact ⟨a, t, rfl⟩
  have hs1t : simFuel gs F t1 = some s1 := by
    have htmp := hs1
    rw [← hparent, hat1, List.drop_one, List.tail_cons] at htmp
    exact htmp
  have hr2t : simFuel gs s1 t2 = some r2 := by
    have htmp := hr2
    rw [ht2, List.drop_one, List.tail_cons] at htmp
    exact htmp
  rw [hpath]
  show simulatePath gs ((findPath gs start pellet.position F false).nodes.dropLast ++
    (findPath gs pellet.position goal (min maxShipFuel (F - c1 + pellet.fuel)) true).nodes)
    F = true
  rw [hnodes1, hnodes2, ht2, dropLast_append_cons _ _ _ hlast1, hat1, List.cons_append]
  unfold simulatePath
  rw [List.drop_one, List.tail_cons, simFuel_append, hs1t]
  show (simFuel gs s1 t2).isSome = true
  rw [hr2t]
  rfl

/-- Replay consistency for `findPathWithRefueling` under the validity
conditions of `twoLegPath_sim`. -/
theorem withRefueling_sim (gs : GameState) (hpel : ∀ pel ∈ gs.pellets, 0 ≤ pel.fuel)
    (hdist : gs.pellets.Pairwise (fun a b => a.position ≠ b.position))
    (start goal : Pos) (F : ℤ) (hF : F ≤ maxShipFuel)
    (hstart : getPelletAt gs start = none)
    (h : (findPathWithRefueling gs start goal F).success = true) :
    simulatePath gs (findPathWithRefueling gs start goal F).nodes F = true := by
  rcases withRefueling_result gs start goal F with heq | ⟨hd, heq⟩
  · rw [heq] at h ⊢
    exact findPath_sim_true gs start goal F h
  · rw [heq] at h ⊢
    refine foldl_refuel_pred gs start goal F
      (fun path => path.success = true → simulatePath gs path.nodes F = true)
      _ ?_ _ ?_ h
    · intro pellet hmem path c htwo _
      exact twoLegPath_sim gs hpel hdist start goal F hF hstart pellet
        (List.mem_of_mem_filter hmem) path c htwo
    · intro hs
      rw [hd] at hs
      exact absurd hs (by simp)

/-! ### Direct evaluations of the first search iteration -/

theorem scanMin_singleton (e : Pos × PathNode) : scanMin [e] = some e := rfl

theorem findPathLoop_nil (gs : GameState) (goal : Pos) (cp : Bool) (budget : ℕ)
    (closed : List Pos) : findPathLoop gs goal cp budget [] closed = failPath := by
  cases budget with
  | zero => rfl
  | succ k => rfl

theorem foldl_const {α β : Type} (f : α → β → α) (l : List β)
    (h : ∀ a x, x ∈ l → f a x = a) : ∀ a, l.foldl f a = a := by
  induction l with
  | nil => intro a; rfl
  | cons x t ih =>
    intro a
    rw [List.foldl_cons, h a x (List.mem_cons_self _ _)]
    exact ih (fun a y hy => h a y (List.mem_cons_of_mem _ hy)) a

theorem expandNeighbor_nofuel (gs : GameState) (goal : Pos) (cp : Bool) (closed : List Pos)
    (cur : PathNode) (os : OpenSet) (npos : Pos) (h : cur.fuel - 1 < 0) :
    expandNeighbor gs goal cp closed cur os npos = os := by
  unfold expandNeighbor
  by_cases hc : npos ∈ closed
  · rw [if_pos hc]
  · rw [if_neg hc, if_pos h]

/-- `findPath` with start equal to goal: the start node is dequeued first
and is the goal, so the path is the single start node at cost zero.  This
holds for any start fuel, negative included: the fuel is never inspected
before the goal test. -/
theorem findPath_start_eq_goal (gs : GameState) (s : Pos) (F : ℤ) (b : Bool) :
    findPath gs s s F b =
      { nodes := [s], totalCost := some 0, fuelStops := [], success := true } := by
  unfold findPath
  rw [show (1000 : ℕ) = 999 + 1 from rfl]
  show findPathLoop gs s b (999 + 1)
    [(s, ⟨s, 0, manhattanDistance s s, manhattanDistance s s, F, []⟩)] [] = _
  rw [findPathLoop, scanMin_singleton]
  dsimp only
  rw [if_pos rfl]
  unfold reconstructPath
  dsimp only
  rfl

/-- `findPath` with zero fuel and distinct start and goal fails: every
neighbor of the dequeued start is rejected by the fuel check (before any
pellet refuel could apply), the open set empties, and the loop fails. -/
theorem findPath_zero_fuel (gs : GameState) (s g : Pos) (b : Bool) (hne : s ≠ g) :
    findPath gs s g 0 b = failPath := by
  unfold findPath
  rw [show (1000 : ℕ) = 999 + 1 from rfl]
  show findPathLoop gs g b (999 + 1)
    [(s, ⟨s, 0, manhattanDistance s g, manhattanDistance s g, 0, []⟩)] [] = _
  rw [findPathLoop, scanMin_singleton]
  dsimp only
  rw [if_neg hne]
  rw [foldl_const _ _ (fun os npos _ => expandNeighbor_nofuel gs g b _ _ os npos (by norm_num))]
  rw [show osDelete [(s, (⟨s, 0, manhattanDistance s g, manhattanDistance s g, 0, []⟩ : PathNode))] s = [] by
    simp [osDelete]]
  exact findPathLoop_nil gs g b 999 [s]

/-! ### The pellet-free far-start failure used by the spawn scenario -/

theorem manhattanDistance_le_of_offset (s g n : Pos) (dx dy : ℤ) (hx : n.x = s.x + dx)
    (hy : n.y = s.y + dy) (hb : |dx| + |dy| ≤ 2) :
    manhattanDistance s g ≤ manhattanDistance n g + 2 := by
  unfold manhattanDistance
  rw [hx, hy]
  simp only [Int.abs_eq_natAbs] at *
  omega

theorem sign_abs_le (c : ℤ) : |c.sign| ≤ 1 := by
  rcases lt_trichotomy c 0 with h | h | h
  · rw [Int.sign_eq_neg_one_of_neg h]
    norm_num
  · rw [h]
    norm_num
  · rw [Int.sign_eq_one_of_pos h]
    norm_num

theorem getNeighbors_dist (s g npos : Pos) (h : npos ∈ getNeighbors s) :
    manhattanDistance s g ≤ manhattanDistance npos g + 2 := by
  rw [getNeighbors_characterization] at h
  rcases List.mem_append.1 h with h | h
  · simp only [axisNeighbors, List.mem_cons, List.not_mem_nil, or_false] at h
    rcases h with h | h | h | h
    · rw [h]
      exact manhattanDistance_le_of_offset s g _ 1 0 rfl (by ring) (by norm_num)
    · rw [h]
      exact manhattanDistance_le_of_offset s g _ (-1) 0 (by ring) (by ring) (by norm_num)
    · rw [h]
      exact manhattanDistance_le_of_offset s g _ 0 1 (by ring) rfl (by norm_num)
    · rw [h]
      exact manhattanDistance_le_of_offset s g _ 0 (-1) (by ring) (by ring) (by norm_num)
  · split at h
    · simp only [List.mem_singleton] at h
      rw [h]
      refine manhattanDistance_le_of_offset s g _ (-s.x.sign) (-s.y.sign) rfl rfl ?_
      have h1 := sign_abs_le s.x
      have h2 := sign_abs_le s.y
      rw [abs_neg, abs_neg]
      omega
    · exact absurd h (by simp)

theorem stepFuel_no_pellet (gs : GameState) (cp : Bool) (f : ℤ) (p : Pos)
    (h : getPelletAt gs p = none) : stepFuel gs cp f p = f - 1 := by
  unfold stepFuel
  cases cp
  · rfl
  · simp [h]

theorem getPelletAt_empty (gs : GameState) (hP : gs.pellets = []) (p : Pos) :
    getPelletAt gs p = none := by
  unfold getPelletAt
  rw [hP]
  rfl

theorem hasPelletOnPath_empty (gs : GameState) (hP : gs.pellets = []) (src dst : Pos)
    (f : ℤ) : hasPelletOnPath gs src dst f = false := by
  unfold hasPelletOnPath getAllPellets
  rw [hP]
  rfl

theorem expandNeighbor_empty (gs : GameState) (hP : gs.pellets = []) (goal : Pos)
    (cp : Bool) (closed : List Pos) (cur : PathNode) (os : OpenSet) (npos : Pos)
    (hd : cur.fuel - 1 < manhattanDistance npos goal) :
    expandNeighbor gs goal cp closed cur os npos = os := by
  unfold expandNeighbor
  by_cases hc : npos ∈ closed
  · rw [if_pos hc]
  · rw [if_neg hc]
    by_cases hf : cur.fuel - 1 < 0
    · rw [if_pos hf]
    · rw [if_neg hf]
      have hcond : stepFuel gs cp cur.fuel npos < manhattanDistance npos goal ∧
          ¬ hasPelletOnPath gs npos goal (stepFuel gs cp cur.fuel npos) = true := by
        rw [stepFuel_no_pellet gs cp cur.fuel npos (getPelletAt_empty gs hP npos),
          hasPelletOnPath_empty gs hP]
        exact ⟨hd, by simp⟩
      dsimp only
      rw [if_pos hcond]

/-- In a pellet-free snapshot, a search toward a goal farther than twice
the start fuel fails: every neighbor of the start is rejected (a step
covers at most 2 units of Manhattan distance toward the goal) and the open
set empties. -/
theorem findPath_empty_far (gs : GameState) (hP : gs.pellets = []) (s g : Pos) (F : ℤ)
    (hF : 0 ≤ F) (hfar : 2 * F < manhattanDistance s g) (b : Bool) :
    findPath gs s g F b = failPath := by
  have hne : s ≠ g := by
    intro hsg
    rw [hsg] at hfar
    have : manhattanDistance g g = 0 := by
      unfold manhattanDistance
      simp
    omega
  unfold findPath
  rw [show (1000 : ℕ) = 999 + 1 from rfl]
  show findPathLoop gs g b (999 + 1)
    [(s, ⟨s, 0, manhattanDistance s g, manhattanDistance s g, F, []⟩)] [] = _
  rw [findPathLoop, scanMin_singleton]
  dsimp only
  rw [if_neg hne]
  rw [foldl_const _ _ (fun os npos hmem => expandNeighbor_empty gs hP g b _ _ os npos (by
    have hdist := getNeighbors_dist s g npos hmem
    have hnonneg := manhattanDistance_nonneg npos g
    dsimp only
    omega))]
  rw [show osDelete [(s, (⟨s, 0, manhattanDistance s g, manhattanDistance s g, F, []⟩ : PathNode))] s = [] by
    simp [osDelete]]
  exact findPathLoop_nil gs g b 999 [s]

theorem withRefueling_empty_far (gs : GameState) (hP : gs.pellets = []) (s g : Pos)
    (F : ℤ) (hF : 0 ≤ F) (hfar : 2 * F < manhattanDistance s g) :
    findPathWithRefueling gs s g F = failPath := by
  unfold findPathWithRefueling
  dsimp only
  rw [findPath_empty_far gs hP s g F hF hfar true]
  rw [if_neg (by simp [failPath])]
  rw [show (getAllPellets gs).filter
      (fun p => decide (manhattanDistance s p.position ≤ F)) = [] by
    unfold getAllPellets
    rw [hP]
    rfl]
  rfl

theorem evaluateSpawn_empty (gs : GameState) (hP : gs.pellets = []) (c : Pos)
    (hfar : 2 * initialFuel < manhattanDistance c origin) :
    (evaluateSpawnPosition gs c).guaranteedPath = false := by
  unfold evaluateSpawnPosition
  dsimp only
  rw [withRefueling_empty_far gs hP c origin initialFuel (by norm_num [initialFuel]) hfar]
  rfl

theorem spawnLoop_all_fail (gs : GameState) :
    ∀ (cands : List Pos) (acc : List SpawnCandidate) (pf te : ℕ),
      (∀ c ∈ cands, (evaluateSpawnPosition gs c).guaranteedPath = false) →
      spawnLoop gs cands acc pf te = acc := by
  intro cands
  induction cands with
  | nil => intro acc pf te _; rfl
  | cons c rest ih =>
    intro acc pf te hall
    rw [spawnLoop]
    have hc : (evaluateSpawnPosition gs c).guaranteedPath = false :=
      hall c (List.mem_cons_self _ _)
    rw [hc]
    simp only [Bool.false_eq_true, if_false]
    split
    · rfl
    · exact ih acc pf (te + 1) (fun q hq => hall q (List.mem_cons_of_mem _ hq))

theorem getPelletsWithinDistance_empty (gs : GameState) (hP : gs.pellets = [])
    (pos : Pos) (d : ℤ) : getPelletsWithinDistance gs pos d = [] := by
  unfold getPelletsWithinDistance
  rw [hP]
  rfl

theorem fallback_empty (gs : GameState) (hP : gs.pellets = []) (cands : List Pos) :
    findFallbackSpawnPosition gs cands = none := by
  unfold findFallbackSpawnPosition
  rw [foldl_const _ _ (fun acc pos _ => by
    dsimp only
    rw [getPelletsWithinDistance_empty gs hP pos 15]
    rw [if_neg (by simp)])]

/-- With no pellets anywhere and every candidate farther than twice the
initial fuel, no candidate has a feasible path and the fallback never
selects a candidate (no candidate beats the initial maximum of 0 nearby
pellets), so the optimizer returns `none`. -/
theorem findOptimal_empty (gs : GameState) (hP : gs.pellets = []) (cands : List Pos)
    (hfar : ∀ c ∈ cands, 2 * initialFuel < manhattanDistance c origin) :
    findOptimalSpawnPosition gs cands = none := by
  unfold findOptimalSpawnPosition
  dsimp only
  rw [spawnLoop_all_fail gs cands [] 0 0
    (fun c hc => evaluateSpawn_empty gs hP c (hfar c hc))]
  rw [if_pos (by rfl)]
  exact fallback_empty gs hP cands

/-! ### FuelManager facts -/

theorem needsRefueling_zero (gs : GameState) (mode : Bool) (pos : Pos) :
    needsRefueling gs mode 0 pos = true := by
  unfold needsRefueling
  simp

theorem findBestRefuelTarget_none (gs : GameState) (pos : Pos) (fuel : ℤ)
    (h : getReachablePellets gs pos fuel = []) :
    findBestRefuelTarget gs pos fuel = none := by
  unfold findBestRefuelTarget
  rw [h]
  rfl

theorem findBestRefuelTarget_isSome (gs : GameState) (pos : Pos) (fuel : ℤ)
    (h : getReachablePellets gs pos fuel ≠ []) :
    ∃ p, findBestRefuelTarget gs pos fuel = some p := by
  unfold findBestRefuelTarget
  cases hs : (getReachablePellets gs pos fuel).insertionSort (betterRefuel pos fuel) with
  | nil =>
    exfalso
    have hperm := List.perm_insertionSort (betterRefuel pos fuel)
      (getReachablePellets gs pos fuel)
    rw [hs] at hperm
    exact h (List.eq_nil_of_length_eq_zero (by simpa using hperm.symm.length_eq))
  | cons p t => exact ⟨p, rfl⟩

theorem findBestRefuelTarget_max (gs : GameState) (pos : Pos) (fuel : ℤ) (p : Pellet)
    (h : findBestRefuelTarget gs pos fuel = some p) :
    p ∈ gs.pellets ∧ manhattanDistance pos p.position ≤ fuel ∧
      ∀ q ∈ gs.pellets, manhattanDistance pos q.position ≤ fuel →
        refuelScore pos fuel q ≤ refuelScore pos fuel p := by
  unfold findBestRefuelTarget at h
  have hperm : ((getReachablePellets gs pos fuel).insertionSort
      (betterRefuel pos fuel)).Perm (getReachablePellets gs pos fuel) :=
    List.perm_insertionSort _ _
  have hsorted : List.Sorted (betterRefuel pos fuel)
      ((getReachablePellets gs pos fuel).insertionSort (betterRefuel pos fuel)) :=
    List.sorted_insertionSort _ _
  cases hs : (getReachablePellets gs pos fuel).insertionSort (betterRefuel pos fuel) with
  | nil =>
    rw [hs] at h
    exact absurd h (by simp)
  | cons a t =>
    rw [hs] at h hperm hsorted
    simp only [List.head?_cons, Option.some_inj] at h
    have hpa : p = a := h.symm
    have hmem : p ∈ getReachablePellets gs pos fuel := by
      rw [← hperm.mem_iff]
      rw [hpa]
      exact List.mem_cons_self _ _
    have hmem2 := (mem_getPelletsWithinDistance gs pos fuel p).1 hmem
    refine ⟨hmem2.1, hmem2.2, ?_⟩
    intro q hq hqd
    have hqmem : q ∈ a :: t := by
      rw [hperm.mem_iff]
      show q ∈ getPelletsWithinDistance gs pos fuel
      exact (mem_getPelletsWithinDistance gs pos fuel q).2 ⟨hq, hqd⟩
    rcases List.mem_cons.1 hqmem with hqa | hqt
    · rw [hqa, hpa]
    · rw [hpa]
      exact List.rel_of_sorted_cons hsorted q hqt

/-! ### The claims -/

/-- C1 counterexample.  The claim states that `needsRefueling` with fuel 0
and no reachable pellet returns false; at position (1, 0) in a pellet-free
snapshot there is no reachable pellet, yet the function returns true (the
fuel-0 check precedes the reachability check). -/
theorem C1_counterexample :
    getReachablePellets emptyState ⟨1, 0⟩ 0 = [] ∧
    needsRefueling emptyState false 0 ⟨1, 0⟩ = true := by
  constructor
  · rfl
  · rfl

/-- C1 (amended): `needsRefueling(0, position)` returns true
unconditionally — in particular when a pellet lies at the current position,
but also when no pellet is reachable: the `currentFuel === 0` early return
fires before the reachable-pellet check. -/
theorem C1_needsRefueling_fuel_zero (gs : GameState) (mode : Bool) (pos : Pos) :
    needsRefueling gs mode 0 pos = true :=
  needsRefueling_zero gs mode pos

/-- C2 counterexample.  The claim states that with zero pellets the
fallback returns some candidate flagged infeasible; in fact with zero
pellets every candidate has `0` nearby pellets, the fallback's strict
`>` against the initial maximum `0` never fires, and the optimizer
returns `none`. -/
theorem C2_counterexample :
    findOptimalSpawnPosition emptyState [⟨50, 0⟩] = none := by
  decide

/-- C2 (amended): with zero pellets anywhere and every candidate at
Manhattan distance greater than `2 * initialFuel` from the origin (every
generated candidate is at distance at least 49), no candidate is feasible
and `findOptimalSpawnPosition` returns `none`: the fallback strategy is
exercised but selects no candidate, because no candidate has a nonzero
nearby-pellet count.  The candidate list is the explicit argument standing
for the floating-point candidate generator. -/
theorem C2_spawn_zero_pellets (gs : GameState) (cands : List Pos)
    (hP : gs.pellets = [])
    (hfar : ∀ c ∈ cands, 2 * initialFuel < manhattanDistance c origin) :
    findOptimalSpawnPosition gs cands = none :=
  findOptimal_empty gs hP cands hfar

/-- C2 witness. -/
theorem C2_witness : findOptimalSpawnPosition emptyState [⟨0, 60⟩] = none :=
  C2_spawn_zero_pellets emptyState [⟨0, 60⟩] rfl (by decide)

/-- C3 counterexample.  Two successful paths produced by
`findPathWithRefueling` whose replay by `simulatePath` with the same
initial fuel returns false: (a) with a pellet at the start position
(fuel 1, within capacity): the two-leg path through that pellet credits
a refuel at the start that `simulatePath` never applies; (b) with initial
fuel 7 above the capacity 5: the pellet-blind first leg plans with fuels
7, 6, ... but the replay clamps to 5 at a pellet crossed on the way and
goes negative. -/
theorem C3_counterexample :
    ((findPathWithRefueling pelletAtStartState ⟨3, 0⟩ ⟨0, 0⟩ 1).success = true ∧
      simulatePath pelletAtStartState
        (findPathWithRefueling pelletAtStartState ⟨3, 0⟩ ⟨0, 0⟩ 1).nodes 1 = false) ∧
    ((findPathWithRefueling twoPelletState ⟨7, 0⟩ ⟨-5, 0⟩ 7).success = true ∧
      simulatePath twoPelletState
        (findPathWithRefueling twoPelletState ⟨7, 0⟩ ⟨-5, 0⟩ 7).nodes 7 = false) := by
  decide

/-- C3 (amended): for every successful Path produced by `findPath` (either
pellet mode) or by `findPathWithRefueling` on a fixed snapshot whose pellet
amounts are nonnegative and whose pellet positions are pairwise distinct (a
valid pellet map), replaying its node sequence with the same initial fuel
via `simulatePath` returns true, provided the initial fuel is at most the
fuel capacity and no pellet lies at the start position. -/
theorem C3_simulatePath_consistency (gs : GameState) (start goal : Pos) (F : ℤ)
    (b : Bool) (hpel : ∀ pel ∈ gs.pellets, 0 ≤ pel.fuel)
    (hdistinct : gs.pellets.Pairwise (fun a b => a.position ≠ b.position))
    (hF : F ≤ maxShipFuel) (hstart : getPelletAt gs start = none) :
    ((findPath gs start goal F b).success = true →
      simulatePath gs (findPath gs start goal F b).nodes F = true) ∧
    ((findPathWithRefueling gs start goal F).success = true →
      simulatePath gs (findPathWithRefueling gs start goal F).nodes F = true) := by
  constructor
  · intro h
    cases b
    · exact findPath_sim_false gs hpel start goal F hF h
    · exact findPath_sim_true gs start goal F h
  · intro h
    exact withRefueling_sim gs hpel hdistinct start goal F hF hstart h

/-- C3 witness. -/
theorem C3_witness :
    simulatePath emptyState (findPath emptyState ⟨2, 0⟩ ⟨0, 0⟩ 5 true).nodes 5 = true :=
  (C3_simulatePath_consistency emptyState ⟨2, 0⟩ ⟨0, 0⟩ 5 true
    (by intro pel h; exact absurd h (by simp [emptyState]))
    List.Pairwise.nil (by decide) rfl).1 (by decide)

/-- C4: `findPath(start, start, fuel, considerPellets)` with fuel ≥ 0
returns success with the single-node sequence `[start]` and total cost 0
(the start node is dequeued first and is the goal). -/
theorem C4_findPath_start_eq_goal (gs : GameState) (start : Pos) (F : ℤ) (b : Bool)
    (hF : 0 ≤ F) :
    findPath gs start start F b =
      { nodes := [start], totalCost := some 0, fuelStops := [], success := true } :=
  findPath_start_eq_goal gs start F b

/-- C4 witness. -/
theorem C4_witness :
    findPath emptyState ⟨4, 2⟩ ⟨4, 2⟩ 5 true =
      { nodes := [⟨4, 2⟩], totalCost := some 0, fuelStops := [], success := true } :=
  C4_findPath_start_eq_goal emptyState ⟨4, 2⟩ 5 true (by norm_num)

/-- C5: with fuel 0 and distinct start and goal, `findPath` fails, also
with no pellet at the start: every neighbor is rejected because the fuel
decrement is checked before any refuel is applied, even onto a neighbor
holding a pellet. -/
theorem C5_findPath_zero_fuel (gs : GameState) (start goal : Pos) (b : Bool)
    (hne : start ≠ goal) (hstart : getPelletAt gs start = none) :
    (findPath gs start goal 0 b).success = false := by
  rw [findPath_zero_fuel gs start goal b hne]
  rfl

/-- C5 witness: the start (4, 0) has no pellet, the neighbor (3, 0) holds
one, and the search still fails with fuel 0. -/
theorem C5_witness : (findPath pelletAtStartState ⟨4, 0⟩ ⟨0, 0⟩ 0 true).success = false :=
  C5_findPath_zero_fuel pelletAtStartState ⟨4, 0⟩ ⟨0, 0⟩ true (by decide) (by decide)

/-- C6: every successful Path of `findPath` or `findPathWithRefueling` has
total cost equal to its node count minus one — including the two-leg
composed path, whose legs share the waypoint pellet node. -/
theorem C6_totalCost_nodes (gs : GameState) (start goal : Pos) (F : ℤ) (b : Bool) :
    ((findPath gs start goal F b).success = true →
      (findPath gs start goal F b).totalCost =
        some (((findPath gs start goal F b).nodes.length : ℤ) - 1)) ∧
    ((findPathWithRefueling gs start goal F).success = true →
      (findPathWithRefueling gs start goal F).totalCost =
        some (((findPathWithRefueling gs start goal F).nodes.length : ℤ) - 1)) :=
  ⟨fun h => (findPath_success_cost gs start goal F b h).1,
   fun h => (withRefueling_success_cost gs start goal F h).1⟩

/-- C6 witness: a two-leg composed path (through the pellet at the start
position) with 4 nodes and cost 3. -/
theorem C6_witness :
    (findPathWithRefueling pelletAtStartState ⟨3, 0⟩ ⟨0, 0⟩ 1).totalCost =
      some (((findPathWithRefueling pelletAtStartState ⟨3, 0⟩ ⟨0, 0⟩ 1).nodes.length : ℤ) - 1) :=
  (C6_totalCost_nodes pelletAtStartState ⟨3, 0⟩ ⟨0, 0⟩ 1 true).2 (by decide)

/-- C7: `findPath` always terminates (the model is structurally recursive
on the iteration budget of 1000 that the source enforces), returning either
the failed Path — empty node sequence, `Infinity` total cost (modelled
`none`), empty fuel stops, `success = false` — when the open set empties or
the budget runs out, or a successful Path whose last node is the dequeued
goal. -/
theorem C7_termination_failure_shape (gs : GameState) (start goal : Pos) (F : ℤ)
    (b : Bool) :
    findPath gs start goal F b =
      { nodes := [], totalCost := none, fuelStops := [], success := false } ∨
    ((findPath gs start goal F b).success = true ∧
      (findPath gs start goal F b).nodes.getLast? = some goal) := by
  rcases findPath_spec gs start goal F b with h | ⟨n, _, hpos, heq⟩
  · exact Or.inl h
  · right
    rw [heq]
    exact ⟨rfl, by rw [reconstructPath_getLast, hpos]⟩

/-- C8: neighbor generation yields the four unit axis moves
unconditionally and, only when both coordinates are nonzero, the single
diagonal move whose components are the unit signs pointing toward the
origin — independent of any goal (the function takes none): in particular
no diagonal neighbor when `p.x = 0` or `p.y = 0`. -/
theorem C8_getNeighbors_spec (p : Pos) :
    getNeighbors p =
      [⟨p.x + 1, p.y⟩, ⟨p.x - 1, p.y⟩, ⟨p.x, p.y + 1⟩, ⟨p.x, p.y - 1⟩] ++
      (if p.x ≠ 0 ∧ p.y ≠ 0 then [⟨p.x + -p.x.sign, p.y + -p.y.sign⟩] else []) :=
  getNeighbors_characterization p

/-- C9: `findBestRefuelTarget` returns `none` exactly when no pellet lies
within distance `fuel`; otherwise it returns a reachable pellet maximizing
the score `2 * progress + 1.5 * pelletFuel - distanceToPellet + (100 if the
post-refuel fuel, clamped to capacity, covers the pellet's distance to the
goal)` (see `refuelScore`). -/
theorem C9_findBestRefuelTarget_spec (gs : GameState) (pos : Pos) (fuel : ℤ) :
    ((∀ q ∈ gs.pellets, ¬ manhattanDistance pos q.position ≤ fuel) →
      findBestRefuelTarget gs pos fuel = none) ∧
    ((∃ q ∈ gs.pellets, manhattanDistance pos q.position ≤ fuel) →
      ∃ p, findBestRefuelTarget gs pos fuel = some p) ∧
    (∀ p, findBestRefuelTarget gs pos fuel = some p →
      p ∈ gs.pellets ∧ manhattanDistance pos p.position ≤ fuel ∧
      ∀ q ∈ gs.pellets, manhattanDistance pos q.position ≤ fuel →
        refuelScore pos fuel q ≤ refuelScore pos fuel p) := by
  refine ⟨?_, ?_, ?_⟩
  · intro h
    exact findBestRefuelTarget_none gs pos fuel
      (getPelletsWithinDistance_eq_nil gs pos fuel h)
  · rintro ⟨q, hq, hqd⟩
    apply findBestRefuelTarget_isSome
    intro hnil
    have hqmem : q ∈ getPelletsWithinDistance gs pos fuel :=
      (mem_getPelletsWithinDistance gs pos fuel q).2 ⟨hq, hqd⟩
    rw [show getPelletsWithinDistance gs pos fuel =
      getReachablePellets gs pos fuel from rfl, hnil] at hqmem
    exact absurd hqmem (by simp)
  · intro p hp
    exact findBestRefuelTarget_max gs pos fuel p hp

/-- C9 witness. -/
theorem C9_witness : ∃ p, findBestRefuelTarget pelletAtStartState ⟨1, 0⟩ 3 = some p :=
  (C9_findBestRefuelTarget_spec pelletAtStartState ⟨1, 0⟩ 3).2.1 (by decide)

/-- C10: `keyToPosition` inverts `positionToKey` on every position, so the
canonical key is injective and distinct positions never collide as map
keys. -/
theorem C10_positionToKey_roundtrip (p : Pos) :
    keyToPosition (positionToKey p) = p ∧
    ∀ q : Pos, positionToKey p = positionToKey q → p = q := by
  refine ⟨keyToPosition_positionToKey p, ?_⟩
  intro q h
  rw [← keyToPosition_positionToKey p, ← keyToPosition_positionToKey q, h]

/-- C10 witness. -/
theorem C10_witness : (⟨5, -7⟩ : Pos) = ⟨5, -7⟩ :=
  (C10_positionToKey_roundtrip ⟨5, -7⟩).2 ⟨5, -7⟩ rfl

end Asteria

